import Mathlib

/-!
Verification development for the `code-impact-analyzer` repository.

The Rust sources are shallowly embedded: hash maps become association
lists (lookup finds the first matching key; `entry().or_insert().push()`
becomes `pushEntry`), `petgraph`'s `DiGraph` becomes explicit node and
edge lists, and the tracer's general recursion is driven by an explicit
fuel that is chosen large enough by the entry point.  File-system
effects (checksums, file reads and writes) are abstracted into explicit
parameters and write traces.
-/

namespace CodeImpact

/-- Association-list lookup mirroring `HashMap::get`. -/
def lookupMap {α β : Type} [DecidableEq α] : List (α × β) → α → Option β
  | [], _ => none
  | (k', v) :: rest, k => if k' = k then some v else lookupMap rest k

/-- Association-list insert mirroring `HashMap::insert` (replace or append). -/
def insertMap {α β : Type} [DecidableEq α] : List (α × β) → α → β → List (α × β)
  | [], k, v => [(k, v)]
  | (k', v') :: rest, k, v =>
    if k' = k then (k, v) :: rest else (k', v') :: insertMap rest k v

/-- Mirror of `map.entry(k).or_insert_with(Vec::new).push(v)`. -/
def pushEntry {α β : Type} [DecidableEq α] : List (α × List β) → α → β → List (α × List β)
  | [], k, v => [(k, [v])]
  | (k', vs) :: rest, k, v =>
    if k' = k then (k', vs ++ [v]) :: rest else (k', vs) :: pushEntry rest k v

/-- Lookup of a list-valued entry, defaulting to the empty list (the
`unwrap_or_default` pattern used by every query operation). -/
def lookupList {α β : Type} [DecidableEq α] (m : List (α × List β)) (k : α) : List β :=
  (lookupMap m k).getD []

/-- HTTP method enumeration from `types.rs`. -/
inductive HttpMethod where
  | GET
  | POST
  | PUT
  | DELETE
  | PATCH
deriving DecidableEq, Repr

/-- Mirror of `HttpEndpoint::method_str` in `types.rs`. -/
def httpMethodStr : HttpMethod → String
  | .GET => "GET"
  | .POST => "POST"
  | .PUT => "PUT"
  | .DELETE => "DELETE"
  | .PATCH => "PATCH"

/-- HTTP route data attached to a method.  The Rust struct is
`HttpAnnotation` in `types.rs`; the copy of `types.rs` provided lacks the
`is_feign_client` field, but `code_index.rs` both constructs and reads it,
so it is included here.  The Lean name is shortened to `HttpAnnot`. -/
structure HttpAnnot where
  method : HttpMethod
  path : String
  path_params : List String
  is_feign_client : Bool
deriving DecidableEq, Repr

/-- Kafka operation kind from `types.rs`. -/
inductive KafkaOpType where
  | produce
  | consume
deriving DecidableEq, Repr

/-- Kafka operation record from `types.rs`. -/
structure KafkaOperation where
  operation_type : KafkaOpType
  topic : String
  line : Nat
deriving DecidableEq, Repr

/-- Database operation kind from `types.rs`. -/
inductive DbOpType where
  | select
  | insert
  | update
  | delete
deriving DecidableEq, Repr

/-- Database operation record from `types.rs`. -/
structure DbOperation where
  operation_type : DbOpType
  table : String
  line : Nat
deriving DecidableEq, Repr

/-- Redis operation kind from `types.rs`. -/
inductive RedisOpType where
  | get
  | set
  | delete
deriving DecidableEq, Repr

/-- Redis operation record from `types.rs`. -/
structure RedisOperation where
  operation_type : RedisOpType
  key_pattern : String
  line : Nat
deriving DecidableEq, Repr

/-- One call site inside a method body (`MethodCall` in `language_parser.rs`). -/
structure MethodCall where
  target : String
  line : Nat
deriving DecidableEq, Repr

/-- Central method record (`MethodInfo` in `language_parser.rs`).  Paths are
modelled as strings; `http_annotations` is shortened to `http_annot`. -/
structure MethodInfo where
  name : String
  full_qualified_name : String
  file_path : String
  line_range : Nat × Nat
  calls : List MethodCall
  http_annot : Option HttpAnnot
  kafka_operations : List KafkaOperation
  db_operations : List DbOperation
  redis_operations : List RedisOperation
deriving DecidableEq, Repr

/-- Class record (`ClassInfo` in `language_parser.rs`). -/
structure ClassInfo where
  name : String
  methods : List MethodInfo
  line_range : Nat × Nat
  is_interface : Bool
  implements : List String
deriving DecidableEq, Repr

/-- Standalone function record (`FunctionInfo` in `language_parser.rs`). -/
structure FunctionInfo where
  name : String
  full_qualified_name : String
  file_path : String
  line_range : Nat × Nat
  calls : List MethodCall
  http_annot : Option HttpAnnot
  kafka_operations : List KafkaOperation
  db_operations : List DbOperation
  redis_operations : List RedisOperation
deriving DecidableEq, Repr

/-- Parsed source file (`ParsedFile` in `language_parser.rs`); imports are
irrelevant to the indexed relations and omitted. -/
structure ParsedFile where
  file_path : String
  language : String
  classes : List ClassInfo
  functions : List FunctionInfo
deriving DecidableEq, Repr

/-- Endpoint identity (`HttpEndpoint` in `types.rs`). -/
structure HttpEndpoint where
  method : HttpMethod
  path_pattern : String
deriving DecidableEq, Repr

/-- Scanner behind `str::rfind("::")`: index of the last occurrence of two
consecutive colons in the character list. -/
def lastSepIdxGo : List Char → Nat → Option Nat → Option Nat
  | c1 :: c2 :: rest, i, acc =>
    lastSepIdxGo (c2 :: rest) (i + 1) (if c1 = ':' ∧ c2 = ':' then some i else acc)
  | _, _, acc => acc

/-- Mirror of `method_call_target.rfind("::")` followed by the two slice
operations in `resolve_interface_call`: split a qualified name at the last
occurrence of the separator. -/
def splitLastColons (s : String) : Option (String × String) :=
  match lastSepIdxGo s.toList 0 none with
  | some i => some (String.mk (s.toList.take i), String.mk (s.toList.drop (i + 2)))
  | none => none

/-- Mirror of `str::trim_end_matches('*')`. -/
def trimTrailingStars (s : String) : String :=
  String.mk ((s.toList.reverse.dropWhile (fun c => c == '*')).reverse)

/-- Mirror of `str::contains('*')`. -/
def hasStar (s : String) : Bool :=
  s.toList.any (fun c => c == '*')

/-- Character-wise model of `str::starts_with`. -/
def listIsPref : List Char → List Char → Bool
  | [], _ => true
  | _ :: _, [] => false
  | a :: as, b :: bs => a == b && listIsPref as bs

/-- Mirror of `s.starts_with(p)`. -/
def strStartsWith (s p : String) : Bool :=
  listIsPref p.toList s.toList

/-- In-memory relational store (`CodeIndex` in `code_index.rs`).  The
`class_interfaces` relation is modelled from the spec: `code_index.rs` as
provided lacks it, but `impact_tracer.rs` and the repository's tests call
`find_class_interfaces`, and §3 of the spec lists the relation c.f. P3. -/
structure CodeIndex where
  methods : List (String × MethodInfo)
  method_calls : List (String × List String)
  reverse_calls : List (String × List String)
  http_providers : List (HttpEndpoint × String)
  http_consumers : List (HttpEndpoint × List String)
  kafka_producers : List (String × List String)
  kafka_consumers : List (String × List String)
  db_writers : List (String × List String)
  db_readers : List (String × List String)
  redis_writers : List (String × List String)
  redis_readers : List (String × List String)
  config_associations : List (String × List String)
  interface_implementations : List (String × List String)
  class_interfaces : List (String × List String)
deriving DecidableEq, Repr

/-- Mirror of `CodeIndex::new`. -/
def CodeIndex.new : CodeIndex :=
  ⟨[], [], [], [], [], [], [], [], [], [], [], [], [], []⟩

/-- Mirror of `CodeIndex::index_http_annotation`. -/
def indexHttpAnnot (idx : CodeIndex) (method_name : String) (a : HttpAnnot) : CodeIndex :=
  let endpoint : HttpEndpoint := ⟨a.method, a.path⟩
  if a.is_feign_client then
    { idx with http_consumers := pushEntry idx.http_consumers endpoint method_name }
  else
    { idx with http_providers := insertMap idx.http_providers endpoint method_name }

/-- Mirror of `CodeIndex::index_kafka_operation`. -/
def indexKafkaOp (idx : CodeIndex) (method_name : String) (op : KafkaOperation) : CodeIndex :=
  match op.operation_type with
  | .produce => { idx with kafka_producers := pushEntry idx.kafka_producers op.topic method_name }
  | .consume => { idx with kafka_consumers := pushEntry idx.kafka_consumers op.topic method_name }

/-- Mirror of `CodeIndex::index_db_operation`. -/
def indexDbOp (idx : CodeIndex) (method_name : String) (op : DbOperation) : CodeIndex :=
  match op.operation_type with
  | .select => { idx with db_readers := pushEntry idx.db_readers op.table method_name }
  | .insert | .update | .delete =>
    { idx with db_writers := pushEntry idx.db_writers op.table method_name }

/-- Mirror of `CodeIndex::index_redis_operation`. -/
def indexRedisOp (idx : CodeIndex) (method_name : String) (op : RedisOperation) : CodeIndex :=
  match op.operation_type with
  | .get => { idx with redis_readers := pushEntry idx.redis_readers op.key_pattern method_name }
  | .set | .delete =>
    { idx with redis_writers := pushEntry idx.redis_writers op.key_pattern method_name }

/-- Per-call body of the call loop in `index_method`: one forward and one
reverse call edge. -/
def callStep (qn : String) (idx : CodeIndex) (call : MethodCall) : CodeIndex :=
  { idx with
    method_calls := pushEntry idx.method_calls qn call.target,
    reverse_calls := pushEntry idx.reverse_calls call.target qn }

/-- Mirror of `CodeIndex::index_method`: store the record under its
qualified name, append one forward and one reverse call edge per call
site, then index the HTTP, Kafka, database and Redis operations. -/
def indexMethod (idx : CodeIndex) (m : MethodInfo) : CodeIndex :=
  let qn := m.full_qualified_name
  let idx := { idx with methods := insertMap idx.methods qn m }
  let idx := m.calls.foldl (callStep qn) idx
  let idx :=
    match m.http_annot with
    | some a => indexHttpAnnot idx qn a
    | none => idx
  let idx := m.kafka_operations.foldl (fun idx op => indexKafkaOp idx qn op) idx
  let idx := m.db_operations.foldl (fun idx op => indexDbOp idx qn op) idx
  m.redis_operations.foldl (fun idx op => indexRedisOp idx qn op) idx

/-- Mirror of `CodeIndex::index_function`: repackage a `FunctionInfo` as a
`MethodInfo` and index it. -/
def functionToMethod (f : FunctionInfo) : MethodInfo :=
  ⟨f.name, f.full_qualified_name, f.file_path, f.line_range, f.calls,
   f.http_annot, f.kafka_operations, f.db_operations, f.redis_operations⟩

/-- Mirror of `CodeIndex::index_parsed_file`.  The push into
`interface_implementations` follows the source; the accompanying push into
`class_interfaces` is modelled from the spec (§3 and P3: every class listed
as an implementation of `I` has `I` in its `class_interfaces` entry), the
relation being absent from the provided `code_index.rs`. -/
def indexParsedFile (idx : CodeIndex) (pf : ParsedFile) : CodeIndex :=
  let idx := pf.classes.foldl
    (fun idx c =>
      let idx := c.implements.foldl
        (fun idx iname =>
          { idx with
            interface_implementations :=
              pushEntry idx.interface_implementations iname c.name,
            class_interfaces := pushEntry idx.class_interfaces c.name iname }) idx
      c.methods.foldl (fun idx m => indexMethod idx m) idx) idx
  pf.functions.foldl (fun idx f => indexMethod idx (functionToMethod f)) idx

/-- Mirror of `CodeIndex::find_method`. -/
def findMethod (idx : CodeIndex) (qualified_name : String) : Option MethodInfo :=
  lookupMap idx.methods qualified_name

/-- Mirror of `CodeIndex::find_callers`. -/
def findCallers (idx : CodeIndex) (method : String) : List String :=
  lookupList idx.reverse_calls method

/-- Mirror of `CodeIndex::find_callees`. -/
def findCallees (idx : CodeIndex) (method : String) : List String :=
  lookupList idx.method_calls method

/-- Mirror of `CodeIndex::find_http_providers` (at most one provider). -/
def findHttpProviders (idx : CodeIndex) (endpoint : HttpEndpoint) : List String :=
  match lookupMap idx.http_providers endpoint with
  | some p => [p]
  | none => []

/-- Mirror of `CodeIndex::find_http_consumers`. -/
def findHttpConsumers (idx : CodeIndex) (endpoint : HttpEndpoint) : List String :=
  lookupList idx.http_consumers endpoint

/-- Mirror of `CodeIndex::find_kafka_consumers`. -/
def findKafkaConsumers (idx : CodeIndex) (topic : String) : List String :=
  lookupList idx.kafka_consumers topic

/-- Mirror of `CodeIndex::find_kafka_producers`. -/
def findKafkaProducers (idx : CodeIndex) (topic : String) : List String :=
  lookupList idx.kafka_producers topic

/-- Mirror of `CodeIndex::find_db_readers`. -/
def findDbReaders (idx : CodeIndex) (table : String) : List String :=
  lookupList idx.db_readers table

/-- Mirror of `CodeIndex::find_db_writers`. -/
def findDbWriters (idx : CodeIndex) (table : String) : List String :=
  lookupList idx.db_writers table

/-- Mirror of `CodeIndex::find_redis_readers`. -/
def findRedisReaders (idx : CodeIndex) (pre : String) : List String :=
  lookupList idx.redis_readers pre

/-- Mirror of `CodeIndex::find_redis_writers`. -/
def findRedisWriters (idx : CodeIndex) (pre : String) : List String :=
  lookupList idx.redis_writers pre

/-- Mirror of `CodeIndex::find_config_associations`. -/
def findConfigAssociations (idx : CodeIndex) (config_key : String) : List String :=
  lookupList idx.config_associations config_key

/-- Mirror of `CodeIndex::find_interface_implementations`. -/
def findInterfaceImplementations (idx : CodeIndex) (interface_name : String) : List String :=
  lookupList idx.interface_implementations interface_name

/-- Modelled from the spec: `find_class_interfaces` is called by
`impact_tracer.rs` and by the repository's tests but is missing from the
provided `code_index.rs`; §3 of the spec specifies the `class_interfaces`
relation as `class → sequence of interfaces it implements`, which the
tests confirm (`find_class_interfaces("…ServiceImpl") = ["…Service"]`). -/
def findClassInterfaces (idx : CodeIndex) (class_name : String) : List String :=
  lookupList idx.class_interfaces class_name

/-- Mirror of `CodeIndex::resolve_interface_call`: split the target at the
last `::`; when the class part has exactly one recorded implementation,
substitute it, otherwise return the target unchanged. -/
def resolveInterfaceCall (idx : CodeIndex) (target : String) : String :=
  match splitLastColons target with
  | some (cls, mname) =>
    match findInterfaceImplementations idx cls with
    | [implCls] => implCls ++ "::" ++ mname
    | _ => target
  | none => target

/-- Mirror of `CodeIndex::redis_key_matches`. -/
def redisKeyMatches (pattern key : String) : Bool :=
  if pattern = key then true
  else if hasStar pattern then strStartsWith key (trimTrailingStars pattern)
  else if hasStar key then strStartsWith pattern (trimTrailingStars key)
  else false

/-- Tracer configuration (`TraceConfig` in `impact_tracer.rs`). -/
structure TraceConfig where
  max_depth : Nat
  trace_upstream : Bool
  trace_downstream : Bool
  trace_cross_service : Bool
deriving DecidableEq, Repr

/-- Mirror of `TraceConfig::default`. -/
def TraceConfig.default : TraceConfig :=
  ⟨10, true, true, true⟩

/-- Node variants of the impact graph (`NodeType` in `impact_tracer.rs`). -/
inductive NodeType where
  | method (qualified_name : String)
  | httpEndpoint (path : String) (method : String)
  | kafkaTopic (name : String)
  | databaseTable (name : String)
  | redisPref (pre : String)
deriving DecidableEq, Repr

/-- Node metadata (`NodeMetadata` in `impact_tracer.rs`). -/
structure NodeMetadata where
  label : String
  properties : List (String × String)
deriving DecidableEq, Repr

/-- Graph node (`ImpactNode` in `impact_tracer.rs`). -/
structure ImpactNode where
  id : String
  node_type : NodeType
  metadata : NodeMetadata
deriving DecidableEq, Repr

/-- Mirror of `ImpactNode::method`. -/
def methodNode (qualified_name : String) : ImpactNode :=
  ⟨"method:" ++ qualified_name, .method qualified_name, ⟨qualified_name, []⟩⟩

/-- Mirror of `ImpactNode::http_endpoint`. -/
def httpEndpointNode (m : HttpMethod) (path : String) : ImpactNode :=
  let ms := httpMethodStr m
  ⟨"http:" ++ ms ++ ":" ++ path, .httpEndpoint path ms, ⟨ms ++ " " ++ path, []⟩⟩

/-- Mirror of `ImpactNode::kafka_topic`. -/
def kafkaTopicNode (name : String) : ImpactNode :=
  ⟨"kafka:" ++ name, .kafkaTopic name, ⟨"Kafka: " ++ name, []⟩⟩

/-- Mirror of `ImpactNode::database_table`. -/
def databaseTableNode (name : String) : ImpactNode :=
  ⟨"db:" ++ name, .databaseTable name, ⟨"Table: " ++ name, []⟩⟩

/-- Mirror of `ImpactNode::redis_prefix`. -/
def redisPrefNode (pre : String) : ImpactNode :=
  ⟨"redis:" ++ pre, .redisPref pre, ⟨"Redis: " ++ pre, []⟩⟩

/-- Edge kinds (`EdgeType` in `impact_tracer.rs`). -/
inductive EdgeType where
  | methodCall
  | httpCall
  | kafkaProduceConsume
  | databaseReadWrite
  | redisReadWrite
deriving DecidableEq, Repr

/-- Edge direction (`Direction` in `impact_tracer.rs`). -/
inductive Direction where
  | upstream
  | downstream
deriving DecidableEq, Repr

/-- Graph edge (`ImpactEdge` in `impact_tracer.rs`); `from`/`to` become
`src`/`tgt` because `from` is a Lean keyword. -/
structure ImpactEdge where
  src : String
  tgt : String
  edge_type : EdgeType
  direction : Direction
deriving DecidableEq, Repr

/-- Impact graph (`ImpactGraph` in `impact_tracer.rs`): the `petgraph`
`DiGraph` is modelled by its node list and edge list in insertion order;
the `node_map` is implicit in the node ids. -/
structure ImpactGraph where
  nodes : List ImpactNode
  edges : List ImpactEdge
deriving DecidableEq, Repr

/-- Mirror of `ImpactGraph::new`. -/
def ImpactGraph.new : ImpactGraph :=
  ⟨[], []⟩

/-- Node ids present in the graph (the keys of `node_map`). -/
def nodeIds (g : ImpactGraph) : List String :=
  g.nodes.map (fun n => n.id)

/-- Mirror of `ImpactGraph::add_node`: duplicate ids are not re-added. -/
def addNode (g : ImpactGraph) (n : ImpactNode) : ImpactGraph :=
  if n.id ∈ nodeIds g then g else { g with nodes := g.nodes ++ [n] }

/-- Mirror of `ImpactGraph::add_edge`: edges whose endpoints are not
present are silently dropped; parallel edges are allowed (as in
`DiGraph::add_edge`). -/
def addEdge (g : ImpactGraph) (src tgt : String) (et : EdgeType) (dir : Direction) :
    ImpactGraph :=
  if src ∈ nodeIds g ∧ tgt ∈ nodeIds g then
    { g with edges := g.edges ++ [⟨src, tgt, et, dir⟩] }
  else g

/-- Fuel-indexed pair of traversal functions.  The Rust tracer's general
recursion is embedded by levels: level `fuel + 1` may recurse into level
`fuel`.  The entry point supplies a fuel large enough for the bound
enforced by `max_depth` and the visited sets. -/
structure TracerFns where
  up : String → Nat → List String → ImpactGraph → List String × ImpactGraph
  down : String → Nat → List String → ImpactGraph → List String × ImpactGraph

/-- Mirror of `ImpactTracer::trace_http_interface`, recursing through the
previous fuel level.  Cross-service recursion restarts at depth 0 with a
clone of the visited set, which is discarded afterwards. -/
def traceHttpOf (idx : CodeIndex) (prev : TracerFns) (method : String)
    (mi : MethodInfo) (vis : List String) (g : ImpactGraph) : ImpactGraph :=
  match mi.http_annot with
  | none => g
  | some ann =>
    let endpoint : HttpEndpoint := ⟨ann.method, ann.path⟩
    let enode := httpEndpointNode ann.method ann.path
    let g := addNode g enode
    let mid := "method:" ++ method
    if ann.is_feign_client then
      let g := addEdge g mid enode.id .httpCall .downstream
      (findHttpProviders idx endpoint).foldl
        (fun g provider =>
          if provider ∈ vis then g
          else
            let g := addNode g (methodNode provider)
            let g := addEdge g enode.id ("method:" ++ provider) .httpCall .downstream
            (prev.down provider 0 vis g).2) g
    else
      let g := addEdge g enode.id mid .httpCall .upstream
      (findHttpConsumers idx endpoint).foldl
        (fun g consumer =>
          if consumer ∈ vis then g
          else
            let g := addNode g (methodNode consumer)
            let g := addEdge g ("method:" ++ consumer) enode.id .httpCall .upstream
            (prev.up consumer 0 vis g).2) g

/-- Mirror of `ImpactTracer::trace_kafka_topic`. -/
def traceKafkaOf (idx : CodeIndex) (prev : TracerFns) (method : String)
    (mi : MethodInfo) (vis : List String) (g : ImpactGraph) : ImpactGraph :=
  let mid := "method:" ++ method
  mi.kafka_operations.foldl
    (fun g op =>
      let tnode := kafkaTopicNode op.topic
      let g := addNode g tnode
      match op.operation_type with
      | .produce =>
        let g := addEdge g mid tnode.id .kafkaProduceConsume .downstream
        (findKafkaConsumers idx op.topic).foldl
          (fun g consumer =>
            if consumer ∈ vis then g
            else
              let g := addNode g (methodNode consumer)
              let g := addEdge g tnode.id ("method:" ++ consumer)
                         .kafkaProduceConsume .downstream
              (prev.down consumer 0 vis g).2) g
      | .consume =>
        let g := addEdge g tnode.id mid .kafkaProduceConsume .upstream
        (findKafkaProducers idx op.topic).foldl
          (fun g producer =>
            if producer ∈ vis then g
            else
              let g := addNode g (methodNode producer)
              let g := addEdge g ("method:" ++ producer) tnode.id
                         .kafkaProduceConsume .upstream
              (prev.up producer 0 vis g).2) g) g

/-- Mirror of `ImpactTracer::trace_database_table`. -/
def traceDbOf (idx : CodeIndex) (prev : TracerFns) (method : String)
    (mi : MethodInfo) (vis : List String) (g : ImpactGraph) : ImpactGraph :=
  let mid := "method:" ++ method
  mi.db_operations.foldl
    (fun g op =>
      let tnode := databaseTableNode op.table
      let g := addNode g tnode
      match op.operation_type with
      | .select =>
        let g := addEdge g tnode.id mid .databaseReadWrite .upstream
        (findDbWriters idx op.table).foldl
          (fun g writer =>
            if writer ∈ vis then g
            else
              let g := addNode g (methodNode writer)
              let g := addEdge g ("method:" ++ writer) tnode.id
                         .databaseReadWrite .upstream
              (prev.up writer 0 vis g).2) g
      | .insert | .update | .delete =>
        let g := addEdge g mid tnode.id .databaseReadWrite .downstream
        (findDbReaders idx op.table).foldl
          (fun g reader =>
            if reader ∈ vis then g
            else
              let g := addNode g (methodNode reader)
              let g := addEdge g tnode.id ("method:" ++ reader)
                         .databaseReadWrite .downstream
              (prev.down reader 0 vis g).2) g) g

/-- Mirror of `ImpactTracer::trace_redis_key`. -/
def traceRedisOf (idx : CodeIndex) (prev : TracerFns) (method : String)
    (mi : MethodInfo) (vis : List String) (g : ImpactGraph) : ImpactGraph :=
  let mid := "method:" ++ method
  mi.redis_operations.foldl
    (fun g op =>
      let rnode := redisPrefNode op.key_pattern
      let g := addNode g rnode
      match op.operation_type with
      | .get =>
        let g := addEdge g rnode.id mid .redisReadWrite .upstream
        (findRedisWriters idx op.key_pattern).foldl
          (fun g writer =>
            if writer ∈ vis then g
            else
              let g := addNode g (methodNode writer)
              let g := addEdge g ("method:" ++ writer) rnode.id
                         .redisReadWrite .upstream
              (prev.up writer 0 vis g).2) g
      | .set | .delete =>
        let g := addEdge g mid rnode.id .redisReadWrite .downstream
        (findRedisReaders idx op.key_pattern).foldl
          (fun g reader =>
            if reader ∈ vis then g
            else
              let g := addNode g (methodNode reader)
              let g := addEdge g rnode.id ("method:" ++ reader)
                         .redisReadWrite .downstream
              (prev.down reader 0 vis g).2) g) g

/-- Mirror of `ImpactTracer::trace_cross_service`: look the method up; on a
miss return silently, otherwise expand HTTP, Kafka, database and Redis
relations in that order.  The cross-service helpers read the visited set
but never mutate it. -/
def traceCrossOf (idx : CodeIndex) (prev : TracerFns) (method : String)
    (vis : List String) (g : ImpactGraph) : ImpactGraph :=
  match findMethod idx method with
  | none => g
  | some mi =>
    let g := traceHttpOf idx prev method mi vis g
    let g := traceKafkaOf idx prev method mi vis g
    let g := traceDbOf idx prev method mi vis g
    traceRedisOf idx prev method mi vis g

/-- Interface-augmented caller collection of
`ImpactTracer::trace_method_upstream` (lines 513–533): the direct callers
plus, when the method's class implements interfaces, the callers of each
interface's method of the same simple name. -/
def collectUpstreamCallers (idx : CodeIndex) (method : String) : List String :=
  let direct := findCallers idx method
  let iface :=
    match splitLastColons method with
    | some (cls, mname) =>
      (findClassInterfaces idx cls).flatMap
        (fun iname => findCallers idx (iname ++ "::" ++ mname))
    | none => []
  direct ++ iface

/-- Loop body of the caller loop in `trace_method_upstream`: resolve the
interface call, skip callers absent from `methods`, otherwise add the
caller node, add the `caller → method` upstream edge and recurse. -/
def upstreamStep (idx : CodeIndex) (prev : TracerFns) (method : String) (depth : Nat)
    (st : List String × ImpactGraph) (caller : String) : List String × ImpactGraph :=
  let resolved := resolveInterfaceCall idx caller
  if (findMethod idx resolved).isSome then
    let g := addNode st.2 (methodNode resolved)
    let g := addEdge g ("method:" ++ resolved) ("method:" ++ method)
               .methodCall .upstream
    prev.up resolved (depth + 1) st.1 g
  else st

/-- Loop body of the callee loop in `trace_method_downstream`. -/
def downstreamStep (idx : CodeIndex) (prev : TracerFns) (method : String) (depth : Nat)
    (st : List String × ImpactGraph) (callee : String) : List String × ImpactGraph :=
  let resolved := resolveInterfaceCall idx callee
  if (findMethod idx resolved).isSome then
    let g := addNode st.2 (methodNode resolved)
    let g := addEdge g ("method:" ++ method) ("method:" ++ resolved)
               .methodCall .downstream
    prev.down resolved (depth + 1) st.1 g
  else st

/-- Fuel-indexed embedding of the mutually recursive pair
`trace_method_upstream` / `trace_method_downstream`.  Each level performs
the depth check, the visited check, the insertion into the visited set,
the caller/callee loop (with interface resolution, the membership test
against `methods`, node and edge insertion and recursion), and finally the
cross-service expansion when enabled. -/
def tracerFns (idx : CodeIndex) (cfg : TraceConfig) : Nat → TracerFns
  | 0 => ⟨fun _ _ vis g => (vis, g), fun _ _ vis g => (vis, g)⟩
  | fuel + 1 =>
    let prev := tracerFns idx cfg fuel
    { up := fun method depth vis g =>
        if cfg.max_depth ≤ depth then (vis, g)
        else if method ∈ vis then (vis, g)
        else
          let vis := vis ++ [method]
          let st := (collectUpstreamCallers idx method).foldl
            (upstreamStep idx prev method depth) (vis, g)
          if cfg.trace_cross_service then
            (st.1, traceCrossOf idx prev method st.1 st.2)
          else st,
      down := fun method depth vis g =>
        if cfg.max_depth ≤ depth then (vis, g)
        else if method ∈ vis then (vis, g)
        else
          let vis := vis ++ [method]
          let st := (findCallees idx method).foldl
            (downstreamStep idx prev method depth) (vis, g)
          if cfg.trace_cross_service then
            (st.1, traceCrossOf idx prev method st.1 st.2)
          else st }

/-- Wrapper naming `ImpactTracer::trace_method_upstream`. -/
def traceMethodUpstream (idx : CodeIndex) (cfg : TraceConfig) (fuel : Nat)
    (method : String) (depth : Nat) (vis : List String) (g : ImpactGraph) :
    List String × ImpactGraph :=
  (tracerFns idx cfg fuel).up method depth vis g

/-- Wrapper naming `ImpactTracer::trace_method_downstream`. -/
def traceMethodDownstream (idx : CodeIndex) (cfg : TraceConfig) (fuel : Nat)
    (method : String) (depth : Nat) (vis : List String) (g : ImpactGraph) :
    List String × ImpactGraph :=
  (tracerFns idx cfg fuel).down method depth vis g

/-- Fuel supplied by the entry point; any value that the bounded traversal
cannot exhaust is adequate, and the bound below always is, the traversal
being limited by `max_depth` and the visited sets. -/
def tracerFuel (idx : CodeIndex) (cfg : TraceConfig) (seeds : List String) : Nat :=
  4 * (idx.methods.length + seeds.length + 1) * (cfg.max_depth + 1) + 4

/-- Per-seed body of `trace_impact`'s loop: add the seed node, trace
upstream threading the shared visited set, then trace downstream from a
fresh empty visited set. -/
def traceSeed (idx : CodeIndex) (cfg : TraceConfig) (fuel : Nat)
    (st : List String × ImpactGraph) (method : String) : List String × ImpactGraph :=
  let g := addNode st.2 (methodNode method)
  let st2 :=
    if cfg.trace_upstream then traceMethodUpstream idx cfg fuel method 0 st.1 g
    else (st.1, g)
  let g3 :=
    if cfg.trace_downstream then
      (traceMethodDownstream idx cfg fuel method 0 [] st2.2).2
    else st2.2
  (st2.1, g3)

/-- Mirror of `ImpactTracer::trace_impact`: one seed node per changed
method; the upstream traversals of all seeds share one visited set, while
each seed's downstream traversal starts from a fresh empty one.  The Rust
function always returns `Ok`, so the embedding is total. -/
def traceImpact (idx : CodeIndex) (cfg : TraceConfig) (changed : List String) :
    ImpactGraph :=
  (changed.foldl (traceSeed idx cfg (tracerFuel idx cfg changed))
    ([], ImpactGraph.new)).2

/-- On-disk index payload (`SerializableIndex` in `index_storage.rs`).
HTTP keys are flattened to `"VERB:path"` strings, exactly as in
`serialize_index`. -/
structure SerializableIndex where
  methods : List (String × MethodInfo)
  method_calls : List (String × List String)
  reverse_calls : List (String × List String)
  http_providers : List (String × String)
  http_consumers : List (String × List String)
  kafka_producers : List (String × List String)
  kafka_consumers : List (String × List String)
  db_writers : List (String × List String)
  db_readers : List (String × List String)
  redis_writers : List (String × List String)
  redis_readers : List (String × List String)
  config_associations : List (String × List String)
deriving DecidableEq, Repr

/-- Mirror of `IndexStorage::serialize_index`: copy the method records and
their call lists, then recompute every resource relation from the method
records themselves; `config_associations` is left empty (the source writes
an empty map with a comment to that effect). -/
def serializeIndex (idx : CodeIndex) : SerializableIndex :=
  let methods := idx.methods.foldl (fun m p => insertMap m p.1 p.2) []
  let method_calls := idx.methods.foldl
    (fun m p =>
      let callees := findCallees idx p.1
      if callees.isEmpty then m else insertMap m p.1 callees) []
  let reverse_calls := idx.methods.foldl
    (fun m p =>
      let callers := findCallers idx p.1
      if callers.isEmpty then m else insertMap m p.1 callers) []
  let http := methods.foldl
    (fun (acc : List (String × String) × List (String × List String)) p =>
      match p.2.http_annot with
      | some a =>
        let key := httpMethodStr a.method ++ ":" ++ a.path
        if a.is_feign_client then (acc.1, pushEntry acc.2 key p.1)
        else (insertMap acc.1 key p.1, acc.2)
      | none => acc) ([], [])
  let kafka := methods.foldl
    (fun (acc : List (String × List String) × List (String × List String)) p =>
      p.2.kafka_operations.foldl
        (fun acc op =>
          match op.operation_type with
          | .produce => (pushEntry acc.1 op.topic p.1, acc.2)
          | .consume => (acc.1, pushEntry acc.2 op.topic p.1)) acc) ([], [])
  let db := methods.foldl
    (fun (acc : List (String × List String) × List (String × List String)) p =>
      p.2.db_operations.foldl
        (fun acc op =>
          match op.operation_type with
          | .select => (acc.1, pushEntry acc.2 op.table p.1)
          | .insert | .update | .delete => (pushEntry acc.1 op.table p.1, acc.2)) acc)
    ([], [])
  let redis := methods.foldl
    (fun (acc : List (String × List String) × List (String × List String)) p =>
      p.2.redis_operations.foldl
        (fun acc op =>
          match op.operation_type with
          | .get => (acc.1, pushEntry acc.2 op.key_pattern p.1)
          | .set | .delete => (pushEntry acc.1 op.key_pattern p.1, acc.2)) acc) ([], [])
  ⟨methods, method_calls, reverse_calls, http.1, http.2, kafka.1, kafka.2,
   db.1, db.2, redis.1, redis.2, []⟩

/-- Mirror of `IndexStorage::deserialize_index`: rebuild a fresh
`CodeIndex` by re-indexing every stored method record; the other stored
relations are not consulted. -/
def deserializeIndex (d : SerializableIndex) : CodeIndex :=
  d.methods.foldl (fun idx p => indexMethod idx p.2) CodeIndex.new

/-- Mirror of the constant `INDEX_VERSION` in `index_storage.rs`. -/
def indexVersion : String := "1.0.0"

/-- Index metadata (`IndexMetadata` in `index_storage.rs`); the workspace
path is modelled as a string, and the file-system-dependent checksum is
computed by an oracle `String → String` passed explicitly. -/
structure IndexMetadata where
  version : String
  workspace_path : String
  created_at : Nat
  updated_at : Nat
  file_count : Nat
  method_count : Nat
  checksum : String
deriving DecidableEq, Repr

/-- Mirror of `IndexMetadata::new`, with the clock and the checksum oracle
as explicit parameters. -/
def metadataNew (fschk : String → String) (now : Nat) (workspace_path : String)
    (file_count method_count : Nat) : IndexMetadata :=
  ⟨indexVersion, workspace_path, now, now, file_count, method_count,
   fschk workspace_path⟩

/-- Major component of a semver string, as computed by
`is_version_compatible` via `split('.').next().unwrap_or("0")`: the text
before the first dot (the whole string when it has no dot; the split of
an empty string still yields one empty component). -/
def majorOf (v : String) : String :=
  String.mk (v.toList.takeWhile (fun c => !(c == '.')))

/-- Mirror of `IndexMetadata::is_version_compatible`. -/
def isVersionCompatible (m : IndexMetadata) : Bool :=
  majorOf indexVersion = majorOf m.version

/-- Mirror of `IndexMetadata::is_valid`: version compatibility, workspace
path equality, and checksum equality against a fresh computation, checked
in that order with early `false` returns. -/
def isValid (fschk : String → String) (m : IndexMetadata) (workspace_path : String) :
    Bool :=
  if ¬ isVersionCompatible m then false
  else if m.workspace_path ≠ workspace_path then false
  else if m.checksum ≠ fschk workspace_path then false
  else true

/-- Mirror of `IndexStorage::load_index` with the file system abstracted:
`filesExist` is `index_exists()`, and the two `Except` parameters are the
outcomes of reading and parsing the metadata and payload files. -/
def loadIndex (fschk : String → String) (workspace_path : String)
    (filesExist : Bool) (metaFile : Except String IndexMetadata)
    (dataFile : Except String SerializableIndex) :
    Except String (Option CodeIndex) :=
  if ¬ filesExist then .ok none
  else
    match metaFile with
    | .error e => .error e
    | .ok meta =>
      if ¬ isValid fschk meta workspace_path then .ok none
      else
        match dataFile with
        | .error e => .error e
        | .ok d => .ok (some (deserializeIndex d))

/-- File-system effects of `IndexStorage::save_index`, in program order. -/
inductive SaveStep where
  | ensureDir
  | writeMeta (m : IndexMetadata)
  | writeData (d : SerializableIndex)
deriving DecidableEq, Repr

/-- Kind tag of a save step. -/
inductive SaveStepKind where
  | dir
  | meta
  | data
deriving DecidableEq, Repr

/-- Kind of a save step. -/
def stepKind : SaveStep → SaveStepKind
  | .ensureDir => .dir
  | .writeMeta _ => .meta
  | .writeData _ => .data

/-- Mirror of `IndexStorage::save_index` as its ordered trace of
file-system effects: ensure the index directory, serialize, compute the
statistics, build the metadata, then `save_metadata` followed by
`save_index_data` — in exactly that order. -/
def saveIndexTrace (fschk : String → String) (now : Nat) (workspace_path : String)
    (idx : CodeIndex) : List SaveStep :=
  let ser := serializeIndex idx
  let method_count := ser.methods.length
  let file_count := ((ser.methods.map (fun p => p.2.file_path)).dedup).length
  let meta := metadataNew fschk now workspace_path file_count method_count
  [SaveStep.ensureDir, SaveStep.writeMeta meta, SaveStep.writeData ser]

/-- Formalization of the spec sentence under test in C6: the metadata file
is written last, i.e. after the payload write there is no later metadata
write — equivalently the last write in the trace is the metadata write. -/
def metaWrittenLast (tr : List SaveStep) : Bool :=
  match (tr.filter (fun s => stepKind s ≠ SaveStepKind.dir)).getLast? with
  | some s => stepKind s = SaveStepKind.meta
  | none => false

/-- The tracer only ever appends nodes and edges; this order captures
that. -/
def GraphLE (g g' : ImpactGraph) : Prop :=
  g.nodes <+: g'.nodes ∧ g.edges <+: g'.edges

/-- Index built by a sequence of `index_method` calls starting from
`CodeIndex::new`. -/
def buildIndex (ms : List MethodInfo) : CodeIndex :=
  ms.foldl indexMethod CodeIndex.new

/-- N-fold application of `index_method` with the same record, from the
empty index. -/
def iterateIndexMethod (m : MethodInfo) : Nat → CodeIndex
  | 0 => CodeIndex.new
  | n + 1 => indexMethod (iterateIndexMethod m n) m

/-- Method record used by the C3 counterexample: `A::a` with one call to
`B::b`. -/
def c3Method : MethodInfo :=
  ⟨"a", "com.example.A::a", "A.java", (1, 10), [⟨"com.example.B::b", 5⟩],
   none, [], [], []⟩

/-- Index used by the C7 witness: interface `com.example.Service`
implemented exactly once, by `com.example.ServiceImpl`. -/
def c7Idx : CodeIndex :=
  indexParsedFile CodeIndex.new
    ⟨"ServiceImpl.java", "java",
     [⟨"com.example.ServiceImpl",
       [⟨"execute", "com.example.ServiceImpl::execute", "ServiceImpl.java",
         (20, 30), [], none, [], [], []⟩],
       (10, 35), false, ["com.example.Service"]⟩], []⟩

/-- Metadata record used by the C5 witness: current version and matching
path, but a stale checksum. -/
def c5Meta : IndexMetadata :=
  ⟨"1.0.0", "/ws", 0, 0, 3, 7, "stale"⟩

/-- Method records used by the C1 witness. -/
def c1Methods : List MethodInfo :=
  [⟨"a", "com.example.A::a", "A.java", (1, 10), [⟨"com.example.B::b", 5⟩],
    none, [], [], []⟩,
   ⟨"b", "com.example.B::b", "B.java", (1, 10), [],
    none, [⟨.produce, "topic-1", 3⟩], [⟨.select, "users", 4⟩], [⟨.set, "user:*", 6⟩]⟩]

/-- Witness index for C4: one method whose seed is entirely absent. -/
def c4Idx : CodeIndex :=
  buildIndex [⟨"x", "com.example.X::x", "X.java", (1, 5), [], none, [], [], []⟩]

/-- Methods of the C10 scenario: `A::a` calls `S::s` calls `C::c`. -/
def c10Methods : List MethodInfo :=
  [⟨"a", "com.example.A::a", "A.java", (1, 10), [⟨"com.example.S::s", 5⟩],
    none, [], [], []⟩,
   ⟨"s", "com.example.S::s", "S.java", (1, 10), [⟨"com.example.C::c", 5⟩],
    none, [], [], []⟩,
   ⟨"c", "com.example.C::c", "C.java", (1, 10), [], none, [], [], []⟩]

/-- Index of the C10 scenario. -/
def c10Idx : CodeIndex := buildIndex c10Methods

/-- Configuration of the C10 scenario: both directions, no cross-service. -/
def c10Cfg : TraceConfig := ⟨10, true, true, false⟩

/-- Graph traced from the duplicated seed list `[S::s, S::s]`. -/
def c10Graph : ImpactGraph :=
  traceImpact c10Idx c10Cfg ["com.example.S::s", "com.example.S::s"]

/-- Index of the C2 witness, the spec's S2 scenario: interface
`com.example.Service` with method `execute`, class
`com.example.ServiceImpl` implementing it, and
`com.example.Controller::handle` calling the interface method. -/
def c2Idx : CodeIndex :=
  indexParsedFile
    (indexParsedFile
      (indexParsedFile CodeIndex.new
        ⟨"Service.java", "java",
         [⟨"com.example.Service",
           [⟨"execute", "com.example.Service::execute", "Service.java",
             (10, 12), [], none, [], [], []⟩], (5, 15), true, []⟩], []⟩)
      ⟨"ServiceImpl.java", "java",
       [⟨"com.example.ServiceImpl",
         [⟨"execute", "com.example.ServiceImpl::execute", "ServiceImpl.java",
           (20, 30), [], none, [], [], []⟩], (10, 35), false,
         ["com.example.Service"]⟩], []⟩)
    ⟨"Controller.java", "java",
     [⟨"com.example.Controller",
       [⟨"handle", "com.example.Controller::handle", "Controller.java",
         (15, 25), [⟨"com.example.Service::execute", 18⟩], none, [], [], []⟩],
       (10, 30), false, []⟩], []⟩

/-- Upstream-only configuration of the C2 witness. -/
def c2Cfg : TraceConfig := ⟨10, true, false, false⟩

/-! Generic lemmas about the association-list operations. -/

theorem lookupList_pushEntry {α β : Type} [DecidableEq α]
    (M : List (α × List β)) (k : α) (v : β) (k' : α) :
    lookupList (pushEntry M k v) k' =
      if k' = k then lookupList M k' ++ [v] else lookupList M k' := by
  induction M with
  | nil =>
    by_cases h : k' = k
    · subst h; simp [pushEntry, lookupList, lookupMap]
    · have h2 : ¬ (k = k') := fun hh => h hh.symm
      simp [pushEntry, lookupList, lookupMap, h, h2]
  | cons p rest ih =>
    obtain ⟨ka, vs⟩ := p
    by_cases h1 : ka = k
    · subst h1
      by_cases h2 : ka = k'
      · subst h2
        simp [pushEntry, lookupList, lookupMap]
      · have h3 : ¬ (k' = ka) := fun hh => h2 hh.symm
        simp [pushEntry, lookupList, lookupMap, h2, h3]
    · by_cases h2 : ka = k'
      · subst h2
        simp [pushEntry, lookupList, lookupMap, h1]
      · simp only [pushEntry, if_neg h1, lookupList, lookupMap, if_neg h2]
        simpa [lookupList] using ih

theorem lookupMap_insertMap_self {α β : Type} [DecidableEq α]
    (l : List (α × β)) (k : α) (v : β) :
    lookupMap (insertMap l k v) k = some v := by
  induction l with
  | nil => simp [insertMap, lookupMap]
  | cons p rest ih =>
    obtain ⟨ka, va⟩ := p
    simp only [insertMap]
    by_cases h : ka = k
    · simp [h, lookupMap]
    · simp [h, lookupMap, ih]

theorem lookupMap_insertMap_ne {α β : Type} [DecidableEq α]
    (l : List (α × β)) (k : α) (v : β) (k' : α) (h : k ≠ k') :
    lookupMap (insertMap l k v) k' = lookupMap l k' := by
  induction l with
  | nil => simp [insertMap, lookupMap, h]
  | cons p rest ih =>
    obtain ⟨ka, va⟩ := p
    simp only [insertMap]
    by_cases h1 : ka = k
    · subst h1; simp [lookupMap, h]
    · simp [h1, lookupMap, ih]

theorem insertMap_absent {α β : Type} [DecidableEq α]
    (l : List (α × β)) (k : α) (v : β) (h : lookupMap l k = none) :
    insertMap l k v = l ++ [(k, v)] := by
  induction l with
  | nil => simp [insertMap]
  | cons p rest ih =>
    obtain ⟨ka, va⟩ := p
    simp only [lookupMap] at h
    by_cases h1 : ka = k
    · simp [h1] at h
    · simp only [insertMap, if_neg h1, List.cons_append, List.cons.injEq, true_and]
      exact ih (by simpa [h1] using h)

theorem insertMap_insertMap_same {α β : Type} [DecidableEq α]
    (l : List (α × β)) (k : α) (v w : β) :
    insertMap (insertMap l k v) k w = insertMap l k w := by
  induction l with
  | nil => simp [insertMap]
  | cons p rest ih =>
    obtain ⟨ka, va⟩ := p
    simp only [insertMap]
    by_cases h : ka = k
    · simp [h, insertMap]
    · simp [h, insertMap, ih]

/-! Generic lemmas about folds. -/

theorem foldl_rel_pres {α β : Type} {R : β → β → Prop}
    (hrefl : ∀ b, R b b) (htrans : ∀ a b c, R a b → R b c → R a c)
    (f : β → α → β) (h : ∀ b a, R b (f b a)) :
    ∀ (l : List α) (b : β), R b (l.foldl f b) := by
  intro l
  induction l with
  | nil => intro b; exact hrefl b
  | cons a rest ih =>
    intro b
    exact htrans _ _ _ (h b a) (ih (f b a))

theorem foldl_pres {α β : Type} {Q : β → Prop} (f : β → α → β)
    (hkeep : ∀ b a, Q b → Q (f b a)) :
    ∀ (l : List α) (b : β), Q b → Q (l.foldl f b) := by
  intro l
  induction l with
  | nil => intro b hb; exact hb
  | cons a rest ih => intro b hb; exact ih (f b a) (hkeep b a hb)

theorem foldl_inv_estab {α β : Type} {J Q : β → Prop} (f : β → α → β) (x : α)
    (hInvKeep : ∀ b a, J b → J (f b a))
    (hset : ∀ b, J b → Q (f b x))
    (hQkeep : ∀ b a, Q b → Q (f b a)) :
    ∀ (l : List α) (b : β), x ∈ l → J b → Q (l.foldl f b) := by
  intro l
  induction l with
  | nil => intro b hx; exact absurd hx (List.not_mem_nil x)
  | cons a rest ih =>
    intro b hx hInv
    rcases List.mem_cons.mp hx with h | h
    · subst h
      exact foldl_pres f hQkeep rest (f b x) (hset b hInv)
    · exact ih (f b a) h (hInvKeep b a hInv)

/-! Graph-growth order and monotonicity of the tracer. -/

theorem graphLE_refl (g : ImpactGraph) : GraphLE g g :=
  ⟨List.prefix_refl _, List.prefix_refl _⟩

theorem graphLE_trans {a b c : ImpactGraph} (h1 : GraphLE a b) (h2 : GraphLE b c) :
    GraphLE a c :=
  ⟨h1.1.trans h2.1, h1.2.trans h2.2⟩

theorem addNode_le (g : ImpactGraph) (n : ImpactNode) : GraphLE g (addNode g n) := by
  unfold addNode
  split
  · exact graphLE_refl g
  · exact ⟨List.prefix_append _ _, List.prefix_refl _⟩

theorem addEdge_le (g : ImpactGraph) (src tgt : String) (et : EdgeType)
    (dir : Direction) : GraphLE g (addEdge g src tgt et dir) := by
  unfold addEdge
  split
  · exact ⟨List.prefix_refl _, List.prefix_append _ _⟩
  · exact graphLE_refl g

theorem mem_nodeIds_mono {g g' : ImpactGraph} (h : GraphLE g g') {i : String}
    (hi : i ∈ nodeIds g) : i ∈ nodeIds g' := by
  unfold nodeIds at *
  exact (h.1.map (fun n => n.id)).subset hi

theorem mem_edges_mono {g g' : ImpactGraph} (h : GraphLE g g') {e : ImpactEdge}
    (he : e ∈ g.edges) : e ∈ g'.edges :=
  h.2.subset he

theorem mem_nodeIds_addNode_self (g : ImpactGraph) (n : ImpactNode) :
    n.id ∈ nodeIds (addNode g n) := by
  unfold addNode
  split
  · assumption
  · simp [nodeIds]

theorem mem_addEdge_self (g : ImpactGraph) (src tgt : String) (et : EdgeType)
    (dir : Direction) (h1 : src ∈ nodeIds g) (h2 : tgt ∈ nodeIds g) :
    (⟨src, tgt, et, dir⟩ : ImpactEdge) ∈ (addEdge g src tgt et dir).edges := by
  unfold addEdge
  rw [if_pos ⟨h1, h2⟩]
  simp

theorem graphLE_addNode_from {g g0 : ImpactGraph} {n : ImpactNode}
    (h : GraphLE g g0) : GraphLE g (addNode g0 n) :=
  graphLE_trans h (addNode_le g0 n)

theorem graphLE_addEdge_from {g g0 : ImpactGraph} {src tgt : String}
    {et : EdgeType} {dir : Direction} (h : GraphLE g g0) :
    GraphLE g (addEdge g0 src tgt et dir) :=
  graphLE_trans h (addEdge_le g0 src tgt et dir)

theorem graphLE_foldl_from {α : Type} {f : ImpactGraph → α → ImpactGraph}
    (h : ∀ g a, GraphLE g (f g a)) (l : List α) {g g0 : ImpactGraph}
    (h0 : GraphLE g g0) : GraphLE g (l.foldl f g0) :=
  graphLE_trans h0
    (foldl_rel_pres graphLE_refl (fun _ _ _ => graphLE_trans) f h l g0)

theorem graphLE_foldl_pair_from {α : Type}
    {f : List String × ImpactGraph → α → List String × ImpactGraph}
    (h : ∀ st a, GraphLE st.2 (f st a).2) (l : List α)
    {g : ImpactGraph} {st : List String × ImpactGraph} (h0 : GraphLE g st.2) :
    GraphLE g (l.foldl f st).2 :=
  graphLE_trans h0
    (foldl_rel_pres (R := fun p q => GraphLE p.2 q.2) (fun _ => graphLE_refl _)
      (fun _ _ _ => graphLE_trans) f h l st)

theorem traceHttpOf_mono {idx : CodeIndex} {prev : TracerFns}
    (hup : ∀ m d vis g, GraphLE g (prev.up m d vis g).2)
    (hdown : ∀ m d vis g, GraphLE g (prev.down m d vis g).2)
    (method : String) (mi : MethodInfo) (vis : List String) (g : ImpactGraph) :
    GraphLE g (traceHttpOf idx prev method mi vis g) := by
  unfold traceHttpOf
  cases mi.http_annot with
  | none => exact graphLE_refl g
  | some ann =>
    simp only
    split
    · refine graphLE_foldl_from (fun g a => ?_) _
        (graphLE_addEdge_from (graphLE_addNode_from (graphLE_refl _)))
      split
      · exact graphLE_refl _
      · refine graphLE_trans ?_ (hdown _ _ _ _)
        exact graphLE_addEdge_from (graphLE_addNode_from (graphLE_refl _))
    · refine graphLE_foldl_from (fun g a => ?_) _
        (graphLE_addEdge_from (graphLE_addNode_from (graphLE_refl _)))
      split
      · exact graphLE_refl _
      · refine graphLE_trans ?_ (hup _ _ _ _)
        exact graphLE_addEdge_from (graphLE_addNode_from (graphLE_refl _))

theorem traceKafkaOf_mono {idx : CodeIndex} {prev : TracerFns}
    (hup : ∀ m d vis g, GraphLE g (prev.up m d vis g).2)
    (hdown : ∀ m d vis g, GraphLE g (prev.down m d vis g).2)
    (method : String) (mi : MethodInfo) (vis : List String) (g : ImpactGraph) :
    GraphLE g (traceKafkaOf idx prev method mi vis g) := by
  unfold traceKafkaOf
  refine graphLE_foldl_from (fun g op => ?_) _ (graphLE_refl _)
  cases op.operation_type <;>
  · simp only
    refine graphLE_foldl_from (fun g a => ?_) _
      (graphLE_addEdge_from (graphLE_addNode_from (graphLE_refl _)))
    split
    · exact graphLE_refl _
    · first
      | exact graphLE_trans
          (graphLE_addEdge_from (graphLE_addNode_from (graphLE_refl _)))
          (hdown _ _ _ _)
      | exact graphLE_trans
          (graphLE_addEdge_from (graphLE_addNode_from (graphLE_refl _)))
          (hup _ _ _ _)

theorem traceDbOf_mono {idx : CodeIndex} {prev : TracerFns}
    (hup : ∀ m d vis g, GraphLE g (prev.up m d vis g).2)
    (hdown : ∀ m d vis g, GraphLE g (prev.down m d vis g).2)
    (method : String) (mi : MethodInfo) (vis : List String) (g : ImpactGraph) :
    GraphLE g (traceDbOf idx prev method mi vis g) := by
  unfold traceDbOf
  refine graphLE_foldl_from (fun g op => ?_) _ (graphLE_refl _)
  cases op.operation_type <;>
  · simp only
    refine graphLE_foldl_from (fun g a => ?_) _
      (graphLE_addEdge_from (graphLE_addNode_from (graphLE_refl _)))
    split
    · exact graphLE_refl _
    · first
      | exact graphLE_trans
          (graphLE_addEdge_from (graphLE_addNode_from (graphLE_refl _)))
          (hdown _ _ _ _)
      | exact graphLE_trans
          (graphLE_addEdge_from (graphLE_addNode_from (graphLE_refl _)))
          (hup _ _ _ _)

theorem traceRedisOf_mono {idx : CodeIndex} {prev : TracerFns}
    (hup : ∀ m d vis g, GraphLE g (prev.up m d vis g).2)
    (hdown : ∀ m d vis g, GraphLE g (prev.down m d vis g).2)
    (method : String) (mi : MethodInfo) (vis : List String) (g : ImpactGraph) :
    GraphLE g (traceRedisOf idx prev method mi vis g) := by
  unfold traceRedisOf
  refine graphLE_foldl_from (fun g op => ?_) _ (graphLE_refl _)
  cases op.operation_type <;>
  · simp only
    refine graphLE_foldl_from (fun g a => ?_) _
      (graphLE_addEdge_from (graphLE_addNode_from (graphLE_refl _)))
    split
    · exact graphLE_refl _
    · first
      | exact graphLE_trans
          (graphLE_addEdge_from (graphLE_addNode_from (graphLE_refl _)))
          (hdown _ _ _ _)
      | exact graphLE_trans
          (graphLE_addEdge_from (graphLE_addNode_from (graphLE_refl _)))
          (hup _ _ _ _)

theorem traceCrossOf_mono {idx : CodeIndex} {prev : TracerFns}
    (hup : ∀ m d vis g, GraphLE g (prev.up m d vis g).2)
    (hdown : ∀ m d vis g, GraphLE g (prev.down m d vis g).2)
    (method : String) (vis : List String) (g : ImpactGraph) :
    GraphLE g (traceCrossOf idx prev method vis g) := by
  unfold traceCrossOf
  cases findMethod idx method with
  | none => exact graphLE_refl g
  | some mi =>
    exact graphLE_trans (traceHttpOf_mono hup hdown method mi vis g)
      (graphLE_trans (traceKafkaOf_mono hup hdown method mi vis _)
        (graphLE_trans (traceDbOf_mono hup hdown method mi vis _)
          (traceRedisOf_mono hup hdown method mi vis _)))

theorem upstreamStep_mono {idx : CodeIndex} {prev : TracerFns}
    (hup : ∀ m d vis g, GraphLE g (prev.up m d vis g).2)
    (m : String) (d : Nat) (st : List String × ImpactGraph) (a : String) :
    GraphLE st.2 (upstreamStep idx prev m d st a).2 := by
  simp only [upstreamStep]
  split
  · refine graphLE_trans ?_ (hup _ _ _ _)
    exact graphLE_addEdge_from (graphLE_addNode_from (graphLE_refl _))
  · exact graphLE_refl _

theorem downstreamStep_mono {idx : CodeIndex} {prev : TracerFns}
    (hdown : ∀ m d vis g, GraphLE g (prev.down m d vis g).2)
    (m : String) (d : Nat) (st : List String × ImpactGraph) (a : String) :
    GraphLE st.2 (downstreamStep idx prev m d st a).2 := by
  simp only [downstreamStep]
  split
  · refine graphLE_trans ?_ (hdown _ _ _ _)
    exact graphLE_addEdge_from (graphLE_addNode_from (graphLE_refl _))
  · exact graphLE_refl _

theorem tracerFns_mono (idx : CodeIndex) (cfg : TraceConfig) :
    ∀ fuel : Nat,
      (∀ m d vis g, GraphLE g ((tracerFns idx cfg fuel).up m d vis g).2) ∧
      (∀ m d vis g, GraphLE g ((tracerFns idx cfg fuel).down m d vis g).2) := by
  intro fuel
  induction fuel with
  | zero => exact ⟨fun _ _ _ g => graphLE_refl g, fun _ _ _ g => graphLE_refl g⟩
  | succ n ih =>
    obtain ⟨ihup, ihdown⟩ := ih
    constructor
    · intro m d vis g
      show GraphLE g ((tracerFns idx cfg (n + 1)).up m d vis g).2
      simp only [tracerFns]
      split
      · exact graphLE_refl g
      · split
        · exact graphLE_refl g
        · split
          · refine graphLE_trans ?_ (traceCrossOf_mono ihup ihdown _ _ _)
            exact graphLE_foldl_pair_from (upstreamStep_mono ihup m d) _ (graphLE_refl _)
          · exact graphLE_foldl_pair_from (upstreamStep_mono ihup m d) _ (graphLE_refl _)
    · intro m d vis g
      show GraphLE g ((tracerFns idx cfg (n + 1)).down m d vis g).2
      simp only [tracerFns]
      split
      · exact graphLE_refl g
      · split
        · exact graphLE_refl g
        · split
          · refine graphLE_trans ?_ (traceCrossOf_mono ihup ihdown _ _ _)
            exact graphLE_foldl_pair_from (downstreamStep_mono ihdown m d) _ (graphLE_refl _)
          · exact graphLE_foldl_pair_from (downstreamStep_mono ihdown m d) _ (graphLE_refl _)

theorem traceMethodUpstream_mono (idx : CodeIndex) (cfg : TraceConfig)
    (fuel : Nat) (m : String) (d : Nat) (vis : List String) (g : ImpactGraph) :
    GraphLE g (traceMethodUpstream idx cfg fuel m d vis g).2 :=
  (tracerFns_mono idx cfg fuel).1 m d vis g

theorem traceMethodDownstream_mono (idx : CodeIndex) (cfg : TraceConfig)
    (fuel : Nat) (m : String) (d : Nat) (vis : List String) (g : ImpactGraph) :
    GraphLE g (traceMethodDownstream idx cfg fuel m d vis g).2 :=
  (tracerFns_mono idx cfg fuel).2 m d vis g

/-! Characterization of the call maps built by `index_method`. -/

theorem foldl_proj {α β γ : Type} (f : β → α → β) (proj : β → γ)
    (h : ∀ b a, proj (f b a) = proj b) :
    ∀ (l : List α) (b : β), proj (l.foldl f b) = proj b := by
  intro l
  induction l with
  | nil => intro b; rfl
  | cons a rest ih => intro b; rw [List.foldl_cons, ih, h]

theorem callStep_methods (qn : String) (idx : CodeIndex) (c : MethodCall) :
    (callStep qn idx c).methods = idx.methods := rfl

theorem indexHttpAnnot_methods (idx : CodeIndex) (n : String) (a : HttpAnnot) :
    (indexHttpAnnot idx n a).methods = idx.methods := by
  unfold indexHttpAnnot; split <;> rfl

theorem indexKafkaOp_methods (idx : CodeIndex) (n : String) (op : KafkaOperation) :
    (indexKafkaOp idx n op).methods = idx.methods := by
  unfold indexKafkaOp; cases op.operation_type <;> rfl

theorem indexDbOp_methods (idx : CodeIndex) (n : String) (op : DbOperation) :
    (indexDbOp idx n op).methods = idx.methods := by
  unfold indexDbOp; cases op.operation_type <;> rfl

theorem indexRedisOp_methods (idx : CodeIndex) (n : String) (op : RedisOperation) :
    (indexRedisOp idx n op).methods = idx.methods := by
  unfold indexRedisOp; cases op.operation_type <;> rfl

theorem indexMethod_methods (idx : CodeIndex) (m : MethodInfo) :
    (indexMethod idx m).methods = insertMap idx.methods m.full_qualified_name m := by
  simp only [indexMethod]
  rw [foldl_proj _ _ (fun b a => indexRedisOp_methods b _ a),
      foldl_proj _ _ (fun b a => indexDbOp_methods b _ a),
      foldl_proj _ _ (fun b a => indexKafkaOp_methods b _ a)]
  cases m.http_annot with
  | none =>
    dsimp only
    rw [foldl_proj _ _ (fun b a => callStep_methods _ b a)]
  | some a =>
    dsimp only
    rw [indexHttpAnnot_methods, foldl_proj _ _ (fun b a => callStep_methods _ b a)]

theorem indexHttpAnnot_method_calls (idx : CodeIndex) (n : String) (a : HttpAnnot) :
    (indexHttpAnnot idx n a).method_calls = idx.method_calls := by
  unfold indexHttpAnnot; split <;> rfl

theorem indexKafkaOp_method_calls (idx : CodeIndex) (n : String) (op : KafkaOperation) :
    (indexKafkaOp idx n op).method_calls = idx.method_calls := by
  unfold indexKafkaOp; cases op.operation_type <;> rfl

theorem indexDbOp_method_calls (idx : CodeIndex) (n : String) (op : DbOperation) :
    (indexDbOp idx n op).method_calls = idx.method_calls := by
  unfold indexDbOp; cases op.operation_type <;> rfl

theorem indexRedisOp_method_calls (idx : CodeIndex) (n : String) (op : RedisOperation) :
    (indexRedisOp idx n op).method_calls = idx.method_calls := by
  unfold indexRedisOp; cases op.operation_type <;> rfl

theorem indexHttpAnnot_reverse_calls (idx : CodeIndex) (n : String) (a : HttpAnnot) :
    (indexHttpAnnot idx n a).reverse_calls = idx.reverse_calls := by
  unfold indexHttpAnnot; split <;> rfl

theorem indexKafkaOp_reverse_calls (idx : CodeIndex) (n : String) (op : KafkaOperation) :
    (indexKafkaOp idx n op).reverse_calls = idx.reverse_calls := by
  unfold indexKafkaOp; cases op.operation_type <;> rfl

theorem indexDbOp_reverse_calls (idx : CodeIndex) (n : String) (op : DbOperation) :
    (indexDbOp idx n op).reverse_calls = idx.reverse_calls := by
  unfold indexDbOp; cases op.operation_type <;> rfl

theorem indexRedisOp_reverse_calls (idx : CodeIndex) (n : String) (op : RedisOperation) :
    (indexRedisOp idx n op).reverse_calls = idx.reverse_calls := by
  unfold indexRedisOp; cases op.operation_type <;> rfl

theorem callsFold_method_calls (qn : String) :
    ∀ (calls : List MethodCall) (idx : CodeIndex),
      (calls.foldl (callStep qn) idx).method_calls =
        calls.foldl (fun M c => pushEntry M qn c.target) idx.method_calls := by
  intro calls
  induction calls with
  | nil => intro idx; rfl
  | cons c rest ih => intro idx; rw [List.foldl_cons, List.foldl_cons, ih]; rfl

theorem callsFold_reverse_calls (qn : String) :
    ∀ (calls : List MethodCall) (idx : CodeIndex),
      (calls.foldl (callStep qn) idx).reverse_calls =
        calls.foldl (fun M c => pushEntry M c.target qn) idx.reverse_calls := by
  intro calls
  induction calls with
  | nil => intro idx; rfl
  | cons c rest ih => intro idx; rw [List.foldl_cons, List.foldl_cons, ih]; rfl

theorem indexMethod_method_calls (idx : CodeIndex) (m : MethodInfo) :
    (indexMethod idx m).method_calls =
      m.calls.foldl (fun M c => pushEntry M m.full_qualified_name c.target)
        idx.method_calls := by
  simp only [indexMethod]
  rw [foldl_proj _ _ (fun b a => indexRedisOp_method_calls b _ a),
      foldl_proj _ _ (fun b a => indexDbOp_method_calls b _ a),
      foldl_proj _ _ (fun b a => indexKafkaOp_method_calls b _ a)]
  cases m.http_annot with
  | none =>
    dsimp only
    rw [callsFold_method_calls]
  | some a =>
    dsimp only
    rw [indexHttpAnnot_method_calls, callsFold_method_calls]

theorem indexMethod_reverse_calls (idx : CodeIndex) (m : MethodInfo) :
    (indexMethod idx m).reverse_calls =
      m.calls.foldl (fun M c => pushEntry M c.target m.full_qualified_name)
        idx.reverse_calls := by
  simp only [indexMethod]
  rw [foldl_proj _ _ (fun b a => indexRedisOp_reverse_calls b _ a),
      foldl_proj _ _ (fun b a => indexDbOp_reverse_calls b _ a),
      foldl_proj _ _ (fun b a => indexKafkaOp_reverse_calls b _ a)]
  cases m.http_annot with
  | none =>
    dsimp only
    rw [callsFold_reverse_calls]
  | some a =>
    dsimp only
    rw [indexHttpAnnot_reverse_calls, callsFold_reverse_calls]

theorem lookupList_foldl_push_fixed {α β γ : Type} [DecidableEq α] (k : α) (e : γ → β) :
    ∀ (xs : List γ) (M : List (α × List β)) (q : α),
      lookupList (xs.foldl (fun M x => pushEntry M k (e x)) M) q =
        lookupList M q ++ (if q = k then xs.map e else []) := by
  intro xs
  induction xs with
  | nil => intro M q; simp
  | cons x rest ih =>
    intro M q
    rw [List.foldl_cons, ih, lookupList_pushEntry]
    by_cases h : q = k
    · simp [h]
    · simp [h]

theorem lookupList_foldl_push_var {α β γ : Type} [DecidableEq α]
    (keyOf : γ → α) (v : β) :
    ∀ (xs : List γ) (M : List (α × List β)) (q : α),
      lookupList (xs.foldl (fun M x => pushEntry M (keyOf x) v) M) q =
        lookupList M q ++
          xs.filterMap (fun x => if keyOf x = q then some v else none) := by
  intro xs
  induction xs with
  | nil => intro M q; simp
  | cons x rest ih =>
    intro M q
    rw [List.foldl_cons, ih, lookupList_pushEntry]
    by_cases h : q = keyOf x
    · simp [h, List.filterMap_cons]
    · have h2 : ¬ (keyOf x = q) := fun hh => h hh.symm
      simp [h, h2, List.filterMap_cons]

theorem findCallees_indexMethod (idx : CodeIndex) (m : MethodInfo) (q : String) :
    findCallees (indexMethod idx m) q =
      findCallees idx q ++
        (if q = m.full_qualified_name then m.calls.map (fun c => c.target) else []) := by
  unfold findCallees
  rw [indexMethod_method_calls, lookupList_foldl_push_fixed]

theorem findCallers_indexMethod (idx : CodeIndex) (m : MethodInfo) (t : String) :
    findCallers (indexMethod idx m) t =
      findCallers idx t ++
        m.calls.filterMap
          (fun c => if c.target = t then some m.full_qualified_name else none) := by
  unfold findCallers
  rw [indexMethod_reverse_calls, lookupList_foldl_push_var]

theorem findCallees_foldIndex :
    ∀ (ms : List MethodInfo) (idx : CodeIndex) (a : String),
      findCallees (ms.foldl indexMethod idx) a =
        findCallees idx a ++
          ms.flatMap
            (fun m =>
              if a = m.full_qualified_name then m.calls.map (fun c => c.target)
              else []) := by
  intro ms
  induction ms with
  | nil => intro idx a; simp
  | cons m rest ih =>
    intro idx a
    rw [List.foldl_cons, ih, findCallees_indexMethod, List.flatMap_cons,
      List.append_assoc]

theorem findCallers_foldIndex :
    ∀ (ms : List MethodInfo) (idx : CodeIndex) (t : String),
      findCallers (ms.foldl indexMethod idx) t =
        findCallers idx t ++
          ms.flatMap
            (fun m =>
              m.calls.filterMap
                (fun c => if c.target = t then some m.full_qualified_name
                          else none)) := by
  intro ms
  induction ms with
  | nil => intro idx t; simp
  | cons m rest ih =>
    intro idx t
    rw [List.foldl_cons, ih, findCallers_indexMethod, List.flatMap_cons,
      List.append_assoc]

/-- C9: after any sequence of `index_method` calls the forward and reverse
call maps are mutually consistent: `forward_calls[a]` contains `b` iff
`reverse_calls[b]` contains `a`. -/
theorem claim_C9 (ms : List MethodInfo) (a b : String) :
    b ∈ findCallees (buildIndex ms) a ↔ a ∈ findCallers (buildIndex ms) b := by
  unfold buildIndex
  rw [findCallees_foldIndex, findCallers_foldIndex]
  have h1 : findCallees CodeIndex.new a = [] := rfl
  have h2 : findCallers CodeIndex.new b = [] := rfl
  rw [h1, h2]
  simp only [List.nil_append, List.mem_flatMap, List.mem_filterMap, List.mem_map]
  constructor
  · rintro ⟨m, hm, hb⟩
    by_cases hq : a = m.full_qualified_name
    · rw [if_pos hq] at hb
      obtain ⟨c, hc, hct⟩ := List.mem_map.mp hb
      refine ⟨m, hm, c, hc, ?_⟩
      rw [if_pos hct, hq]
    · rw [if_neg hq] at hb
      exact absurd hb (List.not_mem_nil b)
  · rintro ⟨m, hm, c, hc, hsome⟩
    by_cases hct : c.target = b
    · rw [if_pos hct] at hsome
      have ha : m.full_qualified_name = a := Option.some.inj hsome
      refine ⟨m, hm, ?_⟩
      rw [if_pos ha.symm]
      exact List.mem_map.mpr ⟨c, hc, hct⟩
    · rw [if_neg hct] at hsome
      exact absurd hsome (Option.noConfusion)

/-- C3 counterexample: two `index_method` calls with the same record do
not leave the index in the single-call state — `find_callees` returns a
duplicated list. -/
theorem claim_C3_counterexample :
    findCallees (iterateIndexMethod c3Method 2) "com.example.A::a" =
        ["com.example.B::b", "com.example.B::b"] ∧
    findCallees (iterateIndexMethod c3Method 1) "com.example.A::a" =
        ["com.example.B::b"] ∧
    iterateIndexMethod c3Method 2 ≠ iterateIndexMethod c3Method 1 := by
  decide

theorem flatten_replicate_append {α : Type} (t : List α) :
    ∀ k : Nat, (List.replicate k t).flatten ++ t = t ++ (List.replicate k t).flatten := by
  intro k
  induction k with
  | zero => simp
  | succ n ih =>
    rw [List.replicate_succ, List.flatten_cons, List.append_assoc, ih,
      ← List.append_assoc]

/-- C3 amended: calling `index_method` `N ≥ 1` times with the same record
leaves the `methods` map in the single-call state, but each call appends
another copy of the record's call edges, so `find_callees` returns the
call-target list repeated `N` times. -/
theorem claim_C3_amended (m : MethodInfo) (n : Nat) :
    (iterateIndexMethod m (n + 1)).methods = (iterateIndexMethod m 1).methods ∧
    findCallees (iterateIndexMethod m (n + 1)) m.full_qualified_name =
      (List.replicate (n + 1) (m.calls.map (fun c => c.target))).flatten := by
  constructor
  · induction n with
    | zero => rfl
    | succ k ih =>
      show (indexMethod (iterateIndexMethod m (k + 1)) m).methods = _
      rw [indexMethod_methods, ih]
      show insertMap (indexMethod CodeIndex.new m).methods _ _ = _
      rw [indexMethod_methods]
      show insertMap (insertMap CodeIndex.new.methods _ _) _ _ = _
      rw [insertMap_insertMap_same]
      exact (indexMethod_methods CodeIndex.new m).symm
  · induction n with
    | zero =>
      show findCallees (indexMethod (iterateIndexMethod m 0) m) _ = _
      rw [findCallees_indexMethod, if_pos rfl]
      simp [iterateIndexMethod]
      rfl
    | succ k ih =>
      show findCallees (indexMethod (iterateIndexMethod m (k + 1)) m) _ = _
      rw [findCallees_indexMethod, if_pos rfl, ih, flatten_replicate_append,
        ← List.flatten_cons, ← List.replicate_succ]

/-- C7: resolution of an interface call target `I::m` substitutes the
single implementation when there is exactly one, and is the identity when
there are zero or at least two implementations. -/
theorem claim_C7 (idx : CodeIndex) (cls mname target : String)
    (hsplit : splitLastColons target = some (cls, mname)) :
    (∀ c, findInterfaceImplementations idx cls = [c] →
        resolveInterfaceCall idx target = c ++ "::" ++ mname) ∧
    (findInterfaceImplementations idx cls = [] →
        resolveInterfaceCall idx target = target) ∧
    (∀ c1 c2 rest, findInterfaceImplementations idx cls = c1 :: c2 :: rest →
        resolveInterfaceCall idx target = target) := by
  refine ⟨?_, ?_, ?_⟩
  · intro c himpl
    unfold resolveInterfaceCall
    rw [hsplit]
    simp [himpl]
  · intro himpl
    unfold resolveInterfaceCall
    rw [hsplit]
    simp [himpl]
  · intro c1 c2 rest himpl
    unfold resolveInterfaceCall
    rw [hsplit]
    simp [himpl]

theorem claim_C7_witness :
    resolveInterfaceCall c7Idx "com.example.Service::execute" =
      "com.example.ServiceImpl" ++ "::" ++ "execute" :=
  (claim_C7 c7Idx "com.example.Service" "execute" "com.example.Service::execute"
      (by decide)).1 "com.example.ServiceImpl" (by decide)

/-- C8 counterexample: the match relation is not symmetric when both
strings contain a wildcard — `a*` matches `ab*` but `ab*` does not match
`a*`. -/
theorem claim_C8_counterexample :
    redisKeyMatches "a*" "ab*" = true ∧ redisKeyMatches "ab*" "a*" = false := by
  decide

/-- C8 amended: matching is exact when neither string contains `*`; a
pattern containing `*` matches exactly the keys beginning with the
pattern truncated at its trailing stars (besides the pattern itself); and
the relation is symmetric whenever at most one of the two strings
contains `*` (with both containing `*` it can be asymmetric). -/
theorem claim_C8_amended (p k : String) :
    (hasStar p = false → hasStar k = false →
      redisKeyMatches p k = (if p = k then true else false)) ∧
    (hasStar p = true →
      redisKeyMatches p k =
        (if p = k then true else strStartsWith k (trimTrailingStars p))) ∧
    ((hasStar p = false ∨ hasStar k = false) →
      redisKeyMatches p k = redisKeyMatches k p) := by
  refine ⟨?_, ?_, ?_⟩
  · intro hp hk
    unfold redisKeyMatches
    by_cases he : p = k
    · simp [he]
    · simp [he, hp, hk]
  · intro hp
    unfold redisKeyMatches
    by_cases he : p = k
    · simp [he]
    · simp [he, hp]
  · intro hor
    unfold redisKeyMatches
    by_cases he : p = k
    · simp [he]
    · have he' : ¬ (k = p) := fun hh => he hh.symm
      rcases hor with hp | hk
      · by_cases hk2 : hasStar k
        · simp [he, he', hp, hk2]
        · simp [he, he', hp, hk2]
      · by_cases hp2 : hasStar p
        · simp [he, he', hk, hp2]
        · simp [he, he', hk, hp2]

theorem claim_C8_witness :
    redisKeyMatches "user:*" "user:123" = redisKeyMatches "user:123" "user:*" :=
  (claim_C8_amended "user:*" "user:123").2.2 (Or.inr (by decide))

/-- C5: an on-disk index is accepted iff the major version, the workspace
path and the freshly computed checksum all match, and when validation
fails `load_index` returns `Ok(None)` (triggering a rebuild). -/
theorem claim_C5 (fschk : String → String) (m : IndexMetadata) (ws : String)
    (dataFile : Except String SerializableIndex) :
    (isValid fschk m ws = true ↔
      (majorOf m.version = majorOf indexVersion ∧ m.workspace_path = ws ∧
        m.checksum = fschk ws)) ∧
    (isValid fschk m ws = false →
      loadIndex fschk ws true (.ok m) dataFile = .ok none) := by
  constructor
  · unfold isValid isVersionCompatible
    split_ifs with h1 h2 h3 <;> simp_all [eq_comm]
  · intro hval
    unfold loadIndex
    simp [hval]

theorem claim_C5_witness :
    loadIndex (fun _ => "fresh") "/ws" true (.ok c5Meta)
        (.ok (serializeIndex CodeIndex.new)) = .ok none :=
  (claim_C5 (fun _ => "fresh") c5Meta "/ws"
      (.ok (serializeIndex CodeIndex.new))).2 (by decide)

/-- C6 counterexample: in `save_index` the metadata write is not the last
file write — the payload write follows it. -/
theorem claim_C6_counterexample :
    metaWrittenLast (saveIndexTrace (fun _ => "chk") 0 "/ws" CodeIndex.new) = false := by
  decide

/-- C6 amended: `save_index` writes the metadata file first and the index
payload file last (so an interrupted save can leave a fresh metadata file
with a missing or stale payload, the opposite of the claimed ordering). -/
theorem claim_C6_amended (fschk : String → String) (now : Nat) (ws : String)
    (idx : CodeIndex) :
    (saveIndexTrace fschk now ws idx).map stepKind =
        [SaveStepKind.dir, SaveStepKind.meta, SaveStepKind.data] ∧
    metaWrittenLast (saveIndexTrace fschk now ws idx) = false :=
  ⟨rfl, rfl⟩

/-! Round-trip lemmas for the persistent store (C1). -/

theorem lookupMap_eq_none_iff {α β : Type} [DecidableEq α]
    (l : List (α × β)) (k : α) :
    lookupMap l k = none ↔ k ∉ l.map (fun p => p.1) := by
  induction l with
  | nil => simp [lookupMap]
  | cons p rest ih =>
    obtain ⟨ka, va⟩ := p
    by_cases h : ka = k
    · subst h; simp [lookupMap]
    · have h2 : ¬ (k = ka) := fun hh => h hh.symm
      simp [lookupMap, h, h2, ih]

theorem fold_indexMethod_methods_distinct :
    ∀ (ms : List MethodInfo) (idx : CodeIndex),
      (∀ m ∈ ms, m.full_qualified_name ∉ idx.methods.map (fun p => p.1)) →
      ((ms.map (fun m => m.full_qualified_name)).Nodup) →
      (ms.foldl indexMethod idx).methods =
        idx.methods ++ ms.map (fun m => (m.full_qualified_name, m)) := by
  intro ms
  induction ms with
  | nil => intro idx _ _; simp
  | cons m rest ih =>
    intro idx hdisj hnodup
    have hqn : m.full_qualified_name ∉ idx.methods.map (fun p => p.1) :=
      hdisj m (List.mem_cons_self m rest)
    have hins : (indexMethod idx m).methods = idx.methods ++ [(m.full_qualified_name, m)] := by
      rw [indexMethod_methods]
      exact insertMap_absent _ _ _ ((lookupMap_eq_none_iff _ _).mpr hqn)
    have hnodup' := hnodup
    rw [List.map_cons, List.nodup_cons] at hnodup'
    obtain ⟨hhead, htail⟩ := hnodup'
    rw [List.foldl_cons, ih (indexMethod idx m) ?_ htail, hins]
    · simp
    · intro m' hm'
      rw [hins]
      simp only [List.map_append, List.mem_append, List.map_cons]
      rintro (h | h)
      · exact hdisj m' (List.mem_cons_of_mem m hm') h
      · simp only [List.map_nil, List.mem_singleton] at h
        exact hhead (h ▸ List.mem_map.mpr ⟨m', hm', rfl⟩)

theorem fold_insertMap_self {α β : Type} [DecidableEq α] :
    ∀ (l : List (α × β)) (acc : List (α × β)),
      ((l.map (fun p => p.1)).Nodup) →
      (∀ p ∈ l, p.1 ∉ acc.map (fun q => q.1)) →
      l.foldl (fun m p => insertMap m p.1 p.2) acc = acc ++ l := by
  intro l
  induction l with
  | nil => intro acc _ _; simp
  | cons p rest ih =>
    intro acc hnodup hdisj
    have hp : p.1 ∉ acc.map (fun q => q.1) := hdisj p (List.mem_cons_self p rest)
    have hins : insertMap acc p.1 p.2 = acc ++ [p] := by
      rw [insertMap_absent _ _ _ ((lookupMap_eq_none_iff _ _).mpr hp)]
    rw [List.map_cons, List.nodup_cons] at hnodup
    obtain ⟨hhead, htail⟩ := hnodup
    rw [List.foldl_cons, hins, ih (acc ++ [p]) htail ?_]
    · simp
    · intro q hq
      simp only [List.map_append, List.mem_append]
      rintro (h | h)
      · exact hdisj q (List.mem_cons_of_mem p hq) h
      · simp only [List.map_cons, List.map_nil, List.mem_singleton] at h
        exact hhead (h ▸ List.mem_map.mpr ⟨q, hq, rfl⟩)

theorem serializeIndex_methods (idx : CodeIndex)
    (h : ((idx.methods.map (fun p => p.1)).Nodup)) :
    (serializeIndex idx).methods = idx.methods := by
  show idx.methods.foldl (fun m p => insertMap m p.1 p.2) [] = idx.methods
  rw [fold_insertMap_self idx.methods [] h (by simp)]
  simp

/-- C1 counterexample: an index holding one interface implementation
answers `find_interface_implementations` before the round trip but not
after it — the serialized form carries no interface relation and
`deserialize_index` rebuilds only from the method records. -/
theorem claim_C1_counterexample :
    findInterfaceImplementations c7Idx "com.example.Service" =
        ["com.example.ServiceImpl"] ∧
    findInterfaceImplementations (deserializeIndex (serializeIndex c7Idx))
        "com.example.Service" = [] := by
  decide

/-- C1 amended: for an index built by `index_method` calls with pairwise
distinct qualified names (so with empty interface and config relations),
the `serialize_index`/`deserialize_index` round trip is the identity, and
hence every query operation is preserved; queries against
`interface_implementations` and `config_associations` (and consumer lists
added by config association) are not preserved in general. -/
theorem claim_C1_amended (ms : List MethodInfo)
    (h : ((ms.map (fun m => m.full_qualified_name)).Nodup)) :
    deserializeIndex (serializeIndex (buildIndex ms)) = buildIndex ms := by
  have hm : (buildIndex ms).methods = ms.map (fun m => (m.full_qualified_name, m)) := by
    unfold buildIndex
    rw [fold_indexMethod_methods_distinct ms CodeIndex.new (by simp [CodeIndex.new]) h]
    rfl
  have hkeys : (((buildIndex ms).methods.map (fun p => p.1)).Nodup) := by
    rw [hm, List.map_map]
    simpa [Function.comp] using h
  unfold deserializeIndex
  rw [serializeIndex_methods _ hkeys, hm, List.foldl_map]
  rfl

theorem claim_C1_witness :
    deserializeIndex (serializeIndex (buildIndex c1Methods)) = buildIndex c1Methods :=
  claim_C1_amended c1Methods (by decide)

/-! Tracer lemmas and the tracer claims (C2, C4, C10). -/

theorem traceSeed_mono (idx : CodeIndex) (cfg : TraceConfig) (fuel : Nat)
    (st : List String × ImpactGraph) (a : String) :
    GraphLE st.2 (traceSeed idx cfg fuel st a).2 := by
  unfold traceSeed
  dsimp only
  split
  · refine graphLE_trans ?_ (traceMethodDownstream_mono _ _ _ _ _ _ _)
    split
    · exact graphLE_trans (addNode_le _ _) (traceMethodUpstream_mono _ _ _ _ _ _ _)
    · exact addNode_le _ _
  · split
    · exact graphLE_trans (addNode_le _ _) (traceMethodUpstream_mono _ _ _ _ _ _ _)
    · exact addNode_le _ _

theorem traceSeed_adds_seed (idx : CodeIndex) (cfg : TraceConfig) (fuel : Nat)
    (st : List String × ImpactGraph) (s : String) :
    ("method:" ++ s) ∈ nodeIds (traceSeed idx cfg fuel st s).2 := by
  have hg1 : ("method:" ++ s) ∈ nodeIds (addNode st.2 (methodNode s)) :=
    mem_nodeIds_addNode_self st.2 (methodNode s)
  unfold traceSeed
  dsimp only
  split
  · refine mem_nodeIds_mono (traceMethodDownstream_mono _ _ _ _ _ _ _) ?_
    split
    · exact mem_nodeIds_mono (traceMethodUpstream_mono _ _ _ _ _ _ _) hg1
    · exact hg1
  · split
    · exact mem_nodeIds_mono (traceMethodUpstream_mono _ _ _ _ _ _ _) hg1
    · exact hg1

theorem traceImpact_contains_seed (idx : CodeIndex) (cfg : TraceConfig)
    (seeds : List String) (s : String) (hs : s ∈ seeds) :
    ("method:" ++ s) ∈ nodeIds (traceImpact idx cfg seeds) := by
  unfold traceImpact
  exact foldl_inv_estab (J := fun _ => True)
    (Q := fun p => ("method:" ++ s) ∈ nodeIds p.2)
    (traceSeed idx cfg (tracerFuel idx cfg seeds)) s
    (fun _ _ _ => trivial)
    (fun st _ => traceSeed_adds_seed idx cfg _ st s)
    (fun st a hq => mem_nodeIds_mono (traceSeed_mono idx cfg _ st a) hq)
    seeds ([], ImpactGraph.new) hs trivial

theorem upstream_noop_of_visited (idx : CodeIndex) (cfg : TraceConfig)
    (fuel : Nat) (m : String) (d : Nat) (vis : List String) (g : ImpactGraph)
    (hm : m ∈ vis) :
    traceMethodUpstream idx cfg fuel m d vis g = (vis, g) := by
  unfold traceMethodUpstream
  cases fuel with
  | zero => rfl
  | succ n =>
    simp only [tracerFns]
    split <;> first
      | rfl
      | (rw [if_pos hm])
      | exact absurd hm (by assumption)

theorem upstream_noop_of_absent (idx : CodeIndex) (cfg : TraceConfig)
    (s : String)
    (hfound : findMethod idx s = none)
    (hcallers : collectUpstreamCallers idx s = []) :
    ∀ (fuel : Nat) (d : Nat) (vis : List String) (g : ImpactGraph),
      (traceMethodUpstream idx cfg fuel s d vis g).2 = g := by
  intro fuel d vis g
  unfold traceMethodUpstream
  cases fuel with
  | zero => rfl
  | succ n =>
    simp only [tracerFns]
    split
    · rfl
    · split
      · rfl
      · rw [hcallers]
        simp only [List.foldl_nil]
        split
        · show traceCrossOf idx (tracerFns idx cfg n) s (vis ++ [s]) g = g
          unfold traceCrossOf
          rw [hfound]
        · rfl

theorem downstream_noop_of_absent (idx : CodeIndex) (cfg : TraceConfig)
    (s : String)
    (hfound : findMethod idx s = none)
    (hcallees : findCallees idx s = []) :
    ∀ (fuel : Nat) (d : Nat) (vis : List String) (g : ImpactGraph),
      (traceMethodDownstream idx cfg fuel s d vis g).2 = g := by
  intro fuel d vis g
  unfold traceMethodDownstream
  cases fuel with
  | zero => rfl
  | succ n =>
    simp only [tracerFns]
    split
    · rfl
    · split
      · rfl
      · rw [hcallees]
        simp only [List.foldl_nil]
        split
        · show traceCrossOf idx (tracerFns idx cfg n) s (vis ++ [s]) g = g
          unfold traceCrossOf
          rw [hfound]
        · rfl

/-- C4: the tracer never fails — every seed of every trace is added to
the graph as a `Method` node; and a seed that the index knows nothing
about (no record, no callers direct or through interfaces, no callees)
produces exactly its own isolated node and no edges. -/
theorem claim_C4 :
    (∀ (idx : CodeIndex) (cfg : TraceConfig) (seeds : List String) (s : String),
      s ∈ seeds → ("method:" ++ s) ∈ nodeIds (traceImpact idx cfg seeds)) ∧
    (∀ (idx : CodeIndex) (cfg : TraceConfig) (s : String),
      findMethod idx s = none →
      collectUpstreamCallers idx s = [] →
      findCallees idx s = [] →
      (traceImpact idx cfg [s]).nodes = [methodNode s] ∧
      (traceImpact idx cfg [s]).edges = []) := by
  constructor
  · exact fun idx cfg seeds s hs => traceImpact_contains_seed idx cfg seeds s hs
  · intro idx cfg s hfound hcallers hcallees
    have hg1 : addNode ImpactGraph.new (methodNode s) =
        ⟨[methodNode s], []⟩ := by
      simp [addNode, nodeIds, ImpactGraph.new]
    have hseed : (traceSeed idx cfg (tracerFuel idx cfg [s]) ([], ImpactGraph.new) s).2 =
        ⟨[methodNode s], []⟩ := by
      unfold traceSeed
      dsimp only
      rw [hg1]
      split
      · rw [downstream_noop_of_absent idx cfg s hfound hcallees]
        split
        · have := upstream_noop_of_absent idx cfg s hfound hcallers
            (tracerFuel idx cfg [s]) 0 [] ⟨[methodNode s], []⟩
          rw [this]
        · rfl
      · split
        · have := upstream_noop_of_absent idx cfg s hfound hcallers
            (tracerFuel idx cfg [s]) 0 [] ⟨[methodNode s], []⟩
          rw [this]
        · rfl
    constructor
    · show (traceImpact idx cfg [s]).nodes = [methodNode s]
      unfold traceImpact
      rw [List.foldl_cons, List.foldl_nil, hseed]
    · show (traceImpact idx cfg [s]).edges = []
      unfold traceImpact
      rw [List.foldl_cons, List.foldl_nil, hseed]

theorem claim_C4_witness :
    ("method:" ++ "com.example.Ghost::g") ∈
        nodeIds (traceImpact c4Idx TraceConfig.default ["com.example.Ghost::g"]) ∧
    (traceImpact c4Idx TraceConfig.default ["com.example.Ghost::g"]).nodes =
        [methodNode "com.example.Ghost::g"] ∧
    (traceImpact c4Idx TraceConfig.default ["com.example.Ghost::g"]).edges = [] :=
  ⟨claim_C4.1 c4Idx TraceConfig.default ["com.example.Ghost::g"]
      "com.example.Ghost::g" (by decide),
   (claim_C4.2 c4Idx TraceConfig.default "com.example.Ghost::g"
      (by decide) (by decide) (by decide)).1,
   (claim_C4.2 c4Idx TraceConfig.default "com.example.Ghost::g"
      (by decide) (by decide) (by decide)).2⟩

/-- C10: within one `trace_impact` call the upstream traversals share one
visited set — a method already in it is never re-expanded (first
conjunct) — while each seed's downstream traversal starts from a fresh
empty visited set.  Concretely, tracing the duplicated seed list
`[S::s, S::s]` over `A::a → S::s → C::c` yields the upstream edge
`A::a → S::s` once (the second seed's upstream traversal finds `S::s`
already visited) but the downstream edge `S::s → C::c` twice (each
seed's downstream traversal restarts from an empty visited set). -/
theorem claim_C10 :
    (∀ (idx : CodeIndex) (cfg : TraceConfig) (fuel : Nat) (m : String) (d : Nat)
        (vis : List String) (g : ImpactGraph), m ∈ vis →
        traceMethodUpstream idx cfg fuel m d vis g = (vis, g)) ∧
    c10Graph.edges =
      [⟨"method:com.example.A::a", "method:com.example.S::s",
        .methodCall, .upstream⟩,
       ⟨"method:com.example.S::s", "method:com.example.C::c",
        .methodCall, .downstream⟩,
       ⟨"method:com.example.S::s", "method:com.example.C::c",
        .methodCall, .downstream⟩] ∧
    nodeIds c10Graph =
      ["method:com.example.S::s", "method:com.example.A::a",
       "method:com.example.C::c"] := by
  refine ⟨?_, by decide, by decide⟩
  intro idx cfg fuel m d vis g hm
  exact upstream_noop_of_visited idx cfg fuel m d vis g hm

theorem claim_C10_witness :
    traceMethodUpstream c10Idx c10Cfg 7 "com.example.S::s" 0
        ["com.example.S::s"] ImpactGraph.new =
      (["com.example.S::s"], ImpactGraph.new) :=
  claim_C10.1 c10Idx c10Cfg 7 "com.example.S::s" 0 ["com.example.S::s"]
    ImpactGraph.new (by decide)

theorem upstream_estab (idx : CodeIndex) (cfg : TraceConfig) (n : Nat)
    (seed caller : String)
    (hdepth : 0 < cfg.max_depth)
    (hmem : caller ∈ collectUpstreamCallers idx seed)
    (hres : resolveInterfaceCall idx caller = caller)
    (hfound : (findMethod idx caller).isSome = true)
    (g : ImpactGraph) (hseed : ("method:" ++ seed) ∈ nodeIds g) :
    ("method:" ++ caller) ∈
        nodeIds (traceMethodUpstream idx cfg (n + 1) seed 0 [] g).2 ∧
    (⟨"method:" ++ caller, "method:" ++ seed, .methodCall, .upstream⟩ :
        ImpactEdge) ∈ (traceMethodUpstream idx cfg (n + 1) seed 0 [] g).2.edges := by
  have hprevup := (tracerFns_mono idx cfg n).1
  have hprevdown := (tracerFns_mono idx cfg n).2
  have hnle : ¬ (cfg.max_depth ≤ 0) := by omega
  unfold traceMethodUpstream
  simp only [tracerFns]
  rw [if_neg hnle, if_neg (List.not_mem_nil seed)]
  have key :
      (fun (p : List String × ImpactGraph) =>
          ("method:" ++ caller) ∈ nodeIds p.2 ∧
          (⟨"method:" ++ caller, "method:" ++ seed, .methodCall, .upstream⟩ :
            ImpactEdge) ∈ p.2.edges)
        ((collectUpstreamCallers idx seed).foldl
          (upstreamStep idx (tracerFns idx cfg n) seed 0) ([] ++ [seed], g)) := by
    refine foldl_inv_estab
      (J := fun p => ("method:" ++ seed) ∈ nodeIds p.2)
      (Q := fun p =>
        ("method:" ++ caller) ∈ nodeIds p.2 ∧
        (⟨"method:" ++ caller, "method:" ++ seed, .methodCall, .upstream⟩ :
          ImpactEdge) ∈ p.2.edges)
      (upstreamStep idx (tracerFns idx cfg n) seed 0) caller
      ?_ ?_ ?_ (collectUpstreamCallers idx seed) ([] ++ [seed], g) hmem hseed
    · intro st a hInv
      exact mem_nodeIds_mono (upstreamStep_mono hprevup seed 0 st a) hInv
    · intro st hInv
      simp only [upstreamStep, hres]
      rw [if_pos hfound]
      have hnode : ("method:" ++ caller) ∈
          nodeIds (addNode st.2 (methodNode caller)) :=
        mem_nodeIds_addNode_self st.2 (methodNode caller)
      have hseed2 : ("method:" ++ seed) ∈
          nodeIds (addNode st.2 (methodNode caller)) :=
        mem_nodeIds_mono (addNode_le st.2 (methodNode caller)) hInv
      have hedge :
          (⟨"method:" ++ caller, "method:" ++ seed, .methodCall, .upstream⟩ :
            ImpactEdge) ∈
            (addEdge (addNode st.2 (methodNode caller)) ("method:" ++ caller)
              ("method:" ++ seed) .methodCall .upstream).edges :=
        mem_addEdge_self _ _ _ _ _ hnode hseed2
      have hle := hprevup caller (0 + 1) st.1
        (addEdge (addNode st.2 (methodNode caller)) ("method:" ++ caller)
          ("method:" ++ seed) .methodCall .upstream)
      exact ⟨mem_nodeIds_mono hle
          (mem_nodeIds_mono (addEdge_le _ _ _ _ _) hnode),
        mem_edges_mono hle hedge⟩
    · intro st a hq
      exact ⟨mem_nodeIds_mono (upstreamStep_mono hprevup seed 0 st a) hq.1,
        mem_edges_mono (upstreamStep_mono hprevup seed 0 st a) hq.2⟩
  split
  · exact ⟨mem_nodeIds_mono (traceCrossOf_mono hprevup hprevdown _ _ _) key.1,
      mem_edges_mono (traceCrossOf_mono hprevup hprevdown _ _ _) key.2⟩
  · exact key

/-- C2: tracing upstream from a concrete method `C::m` whose class `C`
implements interface `I` also consults the callers of `I::m`; a method
`X::x` that calls only `I::m` (is a caller of `I::m`, resolves to itself
and is present in `methods`) ends up in the impact graph together with
the upstream `MethodCall` edge `X::x → C::m`. -/
theorem claim_C2 (idx : CodeIndex) (cfg : TraceConfig)
    (cls mname iface xqn : String)
    (hup : cfg.trace_upstream = true)
    (hdepth : 0 < cfg.max_depth)
    (hsplit : splitLastColons (cls ++ "::" ++ mname) = some (cls, mname))
    (hiface : iface ∈ findClassInterfaces idx cls)
    (hcaller : xqn ∈ findCallers idx (iface ++ "::" ++ mname))
    (hres : resolveInterfaceCall idx xqn = xqn)
    (hfound : (findMethod idx xqn).isSome = true) :
    ("method:" ++ xqn) ∈
        nodeIds (traceImpact idx cfg [cls ++ "::" ++ mname]) ∧
    (⟨"method:" ++ xqn, "method:" ++ (cls ++ "::" ++ mname),
        .methodCall, .upstream⟩ : ImpactEdge) ∈
      (traceImpact idx cfg [cls ++ "::" ++ mname]).edges := by
  have hmem : xqn ∈ collectUpstreamCallers idx (cls ++ "::" ++ mname) := by
    unfold collectUpstreamCallers
    rw [hsplit]
    refine List.mem_append_right _ ?_
    exact List.mem_flatMap.mpr ⟨iface, hiface, hcaller⟩
  obtain ⟨n, hn⟩ : ∃ k, tracerFuel idx cfg [cls ++ "::" ++ mname] = k + 1 :=
    ⟨tracerFuel idx cfg [cls ++ "::" ++ mname] - 1, by unfold tracerFuel; omega⟩
  unfold traceImpact
  rw [List.foldl_cons, List.foldl_nil]
  unfold traceSeed
  dsimp only
  rw [hup]
  simp only [if_true]
  have hseedg1 : ("method:" ++ (cls ++ "::" ++ mname)) ∈
      nodeIds (addNode ImpactGraph.new (methodNode (cls ++ "::" ++ mname))) :=
    mem_nodeIds_addNode_self _ _
  rw [hn]
  have key := upstream_estab idx cfg n (cls ++ "::" ++ mname) xqn hdepth hmem
    hres hfound (addNode ImpactGraph.new (methodNode (cls ++ "::" ++ mname)))
    hseedg1
  split
  · exact ⟨mem_nodeIds_mono (traceMethodDownstream_mono _ _ _ _ _ _ _) key.1,
      mem_edges_mono (traceMethodDownstream_mono _ _ _ _ _ _ _) key.2⟩
  · exact key

theorem claim_C2_witness :
    ("method:" ++ "com.example.Controller::handle") ∈
        nodeIds (traceImpact c2Idx c2Cfg
          ["com.example.ServiceImpl" ++ "::" ++ "execute"]) ∧
    (⟨"method:" ++ "com.example.Controller::handle",
      "method:" ++ ("com.example.ServiceImpl" ++ "::" ++ "execute"),
      .methodCall, .upstream⟩ : ImpactEdge) ∈
      (traceImpact c2Idx c2Cfg
        ["com.example.ServiceImpl" ++ "::" ++ "execute"]).edges :=
  claim_C2 c2Idx c2Cfg "com.example.ServiceImpl" "execute"
    "com.example.Service" "com.example.Controller::handle"
    (by decide) (by decide) (by decide) (by decide) (by decide) (by decide)
    (by decide)

end CodeImpact
